import Mathlib

/-!
Verification of the CouchDB better-auth adapter (`src/index.ts`).

The development shallowly embeds the adapter's pure query-compilation
functions and its CRUD control flow.  JavaScript values are modelled by the
inductive type `J` (with an explicit `undef` for JavaScript `undefined`),
JavaScript objects by ordered association lists with assignment semantics
(`jsSet`), and the external CouchDB store by an oracle trace of responses
(`StoreResp`) consumed by each operation, which also records the requests it
issues (`StoreReq`).  Host-framework callbacks (`transformInput`,
`transformOutput`, `getModelName`, `getFieldName`) are pass-through
transforms at this layer and are modelled as identities.
-/

namespace CouchAdapter

/-- JavaScript-style values: primitives, arrays and objects.  `undef` models
JavaScript `undefined` (absent property reads), distinct from `null`. -/
inductive J where
  | undef : J
  | null : J
  | bool : Bool → J
  | int : Int → J
  | str : String → J
  | arr : List J → J
  | obj : List (String × J) → J
deriving Repr

mutual

/-- Decidable equality for `J`, by structural recursion. -/
def jeq : J → J → Bool
  | J.undef, J.undef => true
  | J.null, J.null => true
  | J.bool a, J.bool b => a == b
  | J.int a, J.int b => a == b
  | J.str a, J.str b => a == b
  | J.arr a, J.arr b => jeqList a b
  | J.obj a, J.obj b => jeqObj a b
  | _, _ => false

def jeqList : List J → List J → Bool
  | [], [] => true
  | x :: xs, y :: ys => jeq x y && jeqList xs ys
  | _, _ => false

def jeqObj : List (String × J) → List (String × J) → Bool
  | [], [] => true
  | (k, v) :: xs, (k', v') :: ys => k == k' && jeq v v' && jeqObj xs ys
  | _, _ => false

end

mutual

theorem jeq_refl (a : J) : jeq a a = true := by
  cases a <;> simp [jeq]
  case arr xs => exact jeqList_refl xs
  case obj fs => exact jeqObj_refl fs

theorem jeqList_refl (l : List J) : jeqList l l = true := by
  cases l with
  | nil => rfl
  | cons x xs => simp [jeqList, jeq_refl x, jeqList_refl xs]

theorem jeqObj_refl (l : List (String × J)) : jeqObj l l = true := by
  cases l with
  | nil => rfl
  | cons p ps =>
    cases p with
    | mk k v => simp [jeqObj, jeq_refl v, jeqObj_refl ps]

end

mutual

theorem jeq_eq : ∀ {a b : J}, jeq a b = true → a = b
  | J.undef, J.undef, _ => rfl
  | J.null, J.null, _ => rfl
  | J.bool _, J.bool _, h => by
    simp [jeq] at h; simp [h]
  | J.int _, J.int _, h => by
    simp [jeq] at h; simp [h]
  | J.str _, J.str _, h => by
    simp [jeq] at h; simp [h]
  | J.arr a, J.arr b, h => by
    simp [jeq] at h
    exact congrArg J.arr (jeqList_eq h)
  | J.obj a, J.obj b, h => by
    simp [jeq] at h
    exact congrArg J.obj (jeqObj_eq h)

theorem jeqList_eq : ∀ {a b : List J}, jeqList a b = true → a = b
  | [], [], _ => rfl
  | x :: xs, y :: ys, h => by
    simp [jeqList] at h
    exact congrArg₂ List.cons (jeq_eq h.1) (jeqList_eq h.2)

theorem jeqObj_eq : ∀ {a b : List (String × J)}, jeqObj a b = true → a = b
  | [], [], _ => rfl
  | (k, v) :: xs, (k', v') :: ys, h => by
    simp [jeqObj] at h
    obtain ⟨⟨hk, hv⟩, hrest⟩ := h
    have : (k, v) = (k', v') := by rw [hk, jeq_eq hv]
    exact congrArg₂ List.cons this (jeqObj_eq hrest)

end

instance : DecidableEq J := fun a b =>
  if h : jeq a b = true then Decidable.isTrue (jeq_eq h)
  else Decidable.isFalse (fun he => h (he ▸ jeq_refl a))

instance : BEq J := ⟨fun a b => jeq a b⟩

/-- A JavaScript object: an ordered association list of properties.  Objects
built by the embedded code have unique keys, mirroring JavaScript. -/
abbrev Doc := List (String × J)

/-- Property read `o[k]`: the first binding of `k`, or `undefined`. -/
def jsGet (o : List (String × J)) (k : String) : J :=
  match o with
  | [] => J.undef
  | p :: ps => if p.1 = k then p.2 else jsGet ps k

/-- Property write `o[k] = v`: replaces an existing binding in place,
otherwise appends (JavaScript insertion-order semantics). -/
def jsSet (o : Doc) (k : String) (v : J) : Doc :=
  if o.any (fun p => p.1 = k) then
    o.map (fun p => if p.1 = k then (k, v) else p)
  else
    o ++ [(k, v)]

/-- Property delete `delete o[k]`. -/
def jsDel (o : Doc) (k : String) : Doc :=
  o.filter (fun p => p.1 ≠ k)

/-- Object spread `\x7b...a, ...b\x7d`: every property of `b` assigned over `a`. -/
def jsSpread (a b : Doc) : Doc :=
  b.foldl (fun acc p => jsSet acc p.1 p.2) a

/-- JavaScript truthiness of a value. -/
def truthy : J → Bool
  | J.undef => false
  | J.null => false
  | J.bool b => b
  | J.int n => n ≠ 0
  | J.str s => s ≠ ""
  | J.arr _ => true
  | J.obj _ => true

/-- A flat where-clause condition `\x7bfield, operator, value, connector?\x7d`
(better-auth's `Where[]` element shape). -/
structure Cond where
  field : String
  operator : String
  value : J
  connector : Option String
deriving Repr, DecidableEq

/-- The operator-name normalisation switch at the head of
`convertWhereArrayToRecord` (src/index.ts lines 845-887). -/
def normalizeOp (op : String) : String :=
  if op = "eq" ∨ op = "equals" then "equals"
  else if op = "ne" ∨ op = "not" then "not"
  else if op = "in" then "in"
  else if op = "not_in" ∨ op = "notIn" then "notIn"
  else if op = "gt" then "gt"
  else if op = "gte" then "gte"
  else if op = "lt" then "lt"
  else if op = "lte" then "lte"
  else if op = "contains" then "contains"
  else if op = "starts_with" ∨ op = "startsWith" then "startsWith"
  else if op = "ends_with" ∨ op = "endsWith" then "endsWith"
  else op

/-- The `\x7b [field]: \x7b [opKey]: value \x7d \x7d` object built for one condition. -/
def condObj (c : Cond) : J :=
  J.obj [(c.field, J.obj [(normalizeOp c.operator, c.value)])]

/-- Flushing the accumulated OR group into the output list: a group of size
one degenerates to the bare condition, a larger group becomes `\x7bOR: [...]\x7d`
(src/index.ts lines 900-907 and 914-920). -/
def closeOrGroup (final : List J) : List J → List J
  | [] => final
  | [c] => final ++ [c]
  | cs => final ++ [J.obj [("OR", J.arr cs)]]

/-- One step of the condition loop in `convertWhereArrayToRecord`
(src/index.ts lines 838-911): an OR-connected condition joins the open OR
group; any other condition first closes the open group, then is appended as
an AND condition. -/
def whereArrayStep (acc : List J × List J) (c : Cond) : List J × List J :=
  if c.connector = some "OR" then
    (acc.1, acc.2 ++ [condObj c])
  else
    (closeOrGroup acc.1 acc.2 ++ [condObj c], [])

/-- `convertWhereArrayToRecord` (src/index.ts lines 817-930): converts the
flat `Where[]` list into a nested record, grouping consecutive OR-connected
conditions.  Returns `none` where the source returns `null`. -/
def convertWhereArrayToRecord (whereArray : List Cond) : Option J :=
  let conditions := whereArray.filter (fun c => c.field ≠ "")
  if conditions.isEmpty then none
  else
    let st := conditions.foldl whereArrayStep ([], [])
    let finalConditions := closeOrGroup st.1 st.2
    match finalConditions with
    | [] => none
    | [single] => some single
    | more => some (J.obj [("AND", J.arr more)])

/-- The regex metacharacters escaped by `escapeRegex`
(the character class `[.*+?^$\x7b\x7d()|[\]\\]`). -/
def isRegexMeta (c : Char) : Bool :=
  c = '.' ∨ c = '*' ∨ c = '+' ∨ c = '?' ∨ c = '^' ∨ c = '$' ∨
  c = Char.ofNat 123 ∨ c = Char.ofNat 125 ∨ c = '(' ∨ c = ')' ∨
  c = '|' ∨ c = '[' ∨ c = ']' ∨ c = '\\'

/-- `escapeRegex` (src/index.ts lines 935-937): prefixes every regex
metacharacter with a backslash (global replace `"\\$&"`). -/
def escapeRegex (value : String) : String :=
  String.mk (value.data.flatMap (fun c => if isRegexMeta c then ['\\', c] else [c]))

/-- JavaScript `String(v)` on the scalar values the adapter receives. -/
def jsToString : J → String
  | J.str s => s
  | J.int n => toString n
  | J.bool b => if b then "true" else "false"
  | J.null => "null"
  | J.undef => "undefined"
  | J.arr _ => ""
  | J.obj _ => "[object Object]"

/-- The operator-translation switch inside `convertWhereToSelector`
(src/index.ts lines 972-1018), applied to one `(op, opValue)` entry of an
operator object, assigning into the accumulated `operators` record. -/
def selOpStep (ops : Doc) (op : String) (opValue : J) : Doc :=
  if op = "equals" then jsSet ops "$eq" opValue
  else if op = "not" then jsSet ops "$ne" opValue
  else if op = "in" then jsSet ops "$in" opValue
  else if op = "notIn" then jsSet ops "$nin" opValue
  else if op = "gt" then jsSet ops "$gt" opValue
  else if op = "gte" then jsSet ops "$gte" opValue
  else if op = "lt" then jsSet ops "$lt" opValue
  else if op = "lte" then jsSet ops "$lte" opValue
  else if op = "contains" then
    jsSet ops "$regex" (J.str (".*" ++ escapeRegex (jsToString opValue) ++ ".*"))
  else if op = "startsWith" then
    jsSet ops "$regex" (J.str ("^" ++ escapeRegex (jsToString opValue) ++ ".*"))
  else if op = "endsWith" then
    jsSet ops "$regex" (J.str (".*" ++ escapeRegex (jsToString opValue) ++ "$"))
  else jsSet ops op opValue

/-- Whether a value takes the operator-object branch of
`convertWhereToSelector` (`typeof value === "object" && value !== null &&
!Array.isArray(value) && !(value instanceof Date)`). -/
def isOperatorObject : J → Bool
  | J.obj _ => true
  | _ => false

mutual

/-- `convertWhereToSelector` (src/index.ts lines 942-1032) on a record
input: lowers the nested where record into a Mango selector.  (The source's
array branch delegates to `convertWhereArrayToRecord`; the composition is
`compileWhere` below.) -/
def convertWhereToSelector : J → J
  | J.obj entries => J.obj (selFold entries [])
  | _ => J.obj []

/-- The `for (const [key, value] of Object.entries(whereRecord))` loop,
assigning into the selector record. -/
def selFold : List (String × J) → Doc → Doc
  | [], acc => acc
  | (k, v) :: rest, acc => selFold rest (selStep acc k v)

/-- One iteration of the entries loop of `convertWhereToSelector`. -/
def selStep (acc : Doc) (k : String) (v : J) : Doc :=
  if k = "AND" ∨ k = "OR" then
    match v with
    | J.arr items =>
      jsSet acc (if k = "AND" then "$and" else "$or") (J.arr (selList items))
    | _ => acc
  else if k = "id" then
    jsSet acc "_id" v
  else
    match v with
    | J.obj opEntries =>
      let operators := opEntries.foldl (fun ops p => selOpStep ops p.1 p.2) []
      if operators.isEmpty then jsSet acc k v else jsSet acc k (J.obj operators)
    | _ => jsSet acc k v

/-- `value.map((item) => convertWhereToSelector(item))` for `$and`/`$or`. -/
def selList : List J → List J
  | [] => []
  | x :: xs => convertWhereToSelector x :: selList xs

end

/-- The composition the adapter applies to a flat `Where[]` list:
`convertWhereToSelector` on an array first calls `convertWhereArrayToRecord`
and returns the empty selector when that yields `null`
(src/index.ts lines 943-951). -/
def compileWhere (whereArray : List Cond) : J :=
  match convertWhereArrayToRecord whereArray with
  | some record => convertWhereToSelector record
  | none => J.obj []

/-- JavaScript `<` restricted to same-type primitive comparisons (the
shapes that occur in the adapter's data; mixed-type coercions are outside
the modelled fragment and compare as incomparable). -/
def jsLt : J → J → Bool
  | J.int a, J.int b => a < b
  | J.str a, J.str b => a < b
  | _, _ => false

/-- `undefined` or `null` (the `aVal === undefined || aVal === null` test). -/
def isNullish : J → Bool
  | J.undef => true
  | J.null => true
  | _ => false

/-- Modelled from the spec: CouchDB Mango selector matching — the external
store's `find(selector)` semantics at the §6 boundary, per §3: a selector is
a mapping from field names (or `$and`/`$or`) to a scalar (implicit
equality) or an operator mapping; every entry must match (conjunction).
Operator semantics follow the spec's operator list; `$regex` and other
operators are outside the modelled fragment and match nothing. -/
def mangoOp (dv : J) (op : String) (ov : J) : Bool :=
  if op = "$eq" then dv = ov
  else if op = "$ne" then dv ≠ ov
  else if op = "$in" then
    match ov with
    | J.arr xs => xs.contains dv
    | _ => false
  else if op = "$nin" then
    match ov with
    | J.arr xs => !xs.contains dv
    | _ => false
  else if op = "$gt" then jsLt ov dv
  else if op = "$gte" then jsLt ov dv || dv = ov
  else if op = "$lt" then jsLt dv ov
  else if op = "$lte" then jsLt dv ov || dv = ov
  else false

/-- Modelled from the spec: conjunction over the entries of one operator
mapping, e.g. `\x7b$gt: 3, $lt: 7\x7d`. -/
def mangoOps (dv : J) : List (String × J) → Bool
  | [] => true
  | (op, ov) :: rest => mangoOp dv op ov && mangoOps dv rest

mutual

/-- Modelled from the spec: whether a stored document matches a Mango
selector (conjunction over all selector entries). -/
def mangoMatches (doc : Doc) : J → Bool
  | J.obj entries => mangoEntries doc entries
  | _ => false

/-- Conjunction over selector entries. -/
def mangoEntries (doc : Doc) : List (String × J) → Bool
  | [] => true
  | (k, v) :: rest => mangoEntry doc k v && mangoEntries doc rest

/-- One selector entry: `$and`/`$or` recurse, an operator mapping applies
its operators to the document field, anything else is implicit equality. -/
def mangoEntry (doc : Doc) (k : String) (v : J) : Bool :=
  if k = "$and" then
    match v with
    | J.arr xs => mangoAll doc xs
    | _ => false
  else if k = "$or" then
    match v with
    | J.arr xs => mangoAny doc xs
    | _ => false
  else
    match v with
    | J.obj ops => mangoOps (jsGet doc k) ops
    | _ => jsGet doc k = v

/-- `$and` children: all must match. -/
def mangoAll (doc : Doc) : List J → Bool
  | [] => true
  | s :: ss => mangoMatches doc s && mangoAll doc ss

/-- `$or` children: at least one must match. -/
def mangoAny (doc : Doc) : List J → Bool
  | [] => false
  | s :: ss => mangoMatches doc s || mangoAny doc ss

end

/-- `cleanDocumentForTransform` (src/index.ts lines 1038-1047): drop `_rev`
and `betterAuthModel`, and mirror `_id` into `id` when present. -/
def cleanDocumentForTransform (doc : Doc) : Doc :=
  let cleaned := jsDel (jsDel doc "_rev") "betterAuthModel"
  if truthy (jsGet cleaned "_id") then jsSet cleaned "id" (jsGet cleaned "_id")
  else cleaned

/-- The host framework's `transformOutput` callback: a caller-schema
pass-through transform at this layer (§6), modelled as the identity. -/
def transformOutput (doc : Doc) : Doc := doc

/-- The host framework's `transformInput` callback, likewise modelled as
the identity pass-through. -/
def transformInput (doc : Doc) : Doc := doc

/-- `mergeOriginalFields` (src/index.ts lines 1054-1066): reinstate keys of
the original document that the transform left absent or undefined, skipping
the store-internal fields. -/
def mergeOriginalFields (transformed original : Doc) : Doc :=
  original.foldl
    (fun result p =>
      if p.1 ≠ "_id" ∧ p.1 ≠ "_rev" ∧ p.1 ≠ "betterAuthModel" ∧ p.1 ≠ "id" then
        if (result.find? (fun q => q.1 = p.1)).isNone ∨ jsGet result p.1 = J.undef then
          jsSet result p.1 p.2
        else result
      else result)
    transformed

/-- The decode pipeline applied to every document the adapter returns:
clean, `transformOutput`, then `mergeOriginalFields` over the cleaned
document (e.g. src/index.ts lines 1309-1312). -/
def decodeDoc (doc : Doc) : Doc :=
  let cleaned := cleanDocumentForTransform doc
  mergeOriginalFields (transformOutput cleaned) cleaned

/-- The shared-database discriminator check used by update, delete and
findOne (src/index.ts lines 1288, 1464, 1548):
`!config.useModelAsDatabase && doc.betterAuthModel && doc.betterAuthModel
!== getModelName(model)`. -/
def betterAuthModelMismatch (useModelAsDatabase : Bool) (doc : Doc) (model : String) : Bool :=
  !useModelAsDatabase && truthy (jsGet doc "betterAuthModel") &&
    (jsGet doc "betterAuthModel" ≠ J.str model)

/-- The `selector.betterAuthModel = getModelName(model)` filter injection
used by update, updateMany, delete, deleteMany, findOne and count under the
shared-database topology (e.g. src/index.ts lines 1269-1272, 1719-1722). -/
def addModelFilter (useModelAsDatabase : Bool) (sel : J) (model : String) : J :=
  if useModelAsDatabase then sel
  else
    match sel with
    | J.obj entries => J.obj (jsSet entries "betterAuthModel" (J.str model))
    | other => other

/-- findMany's selector augmentation under the shared-database topology
(src/index.ts lines 1599-1612): push into an existing `$and`, else wrap the
non-empty selector in `$and`, else set the field on the empty selector. -/
def findManySelector (useModelAsDatabase : Bool) (sel : J) (model : String) : J :=
  if useModelAsDatabase then sel
  else
    let modelObj := J.obj [("betterAuthModel", J.str model)]
    match sel with
    | J.obj entries =>
      match jsGet entries "$and" with
      | J.arr xs => J.obj (jsSet entries "$and" (J.arr (xs ++ [modelObj])))
      | _ =>
        if entries.isEmpty then J.obj (jsSet entries "betterAuthModel" (J.str model))
        else J.obj [("$and", J.arr [J.obj entries, modelObj])]
    | other => other

/-- The read-modify-write merge used by update and updateMany
(src/index.ts lines 1293-1298): `\x7b...existing, ...transformedData,
_id: existing._id, _rev: existing._rev\x7d`. -/
def mergeUpdate (existing tdata : Doc) : Doc :=
  jsSet (jsSet (jsSpread existing tdata) "_id" (jsGet existing "_id"))
    "_rev" (jsGet existing "_rev")

/-- `doc._rev || ""` — the revision passed to `destroy`. -/
def revOrEmptyStr (d : Doc) : String :=
  if truthy (jsGet d "_rev") then jsToString (jsGet d "_rev") else ""

/-! ### The store boundary as an oracle trace

The underlying CouchDB store is an external collaborator (spec §6).  Each
adapter operation is embedded as a function that consumes an oracle trace
of store responses, one per store call, and records the requests it issues,
so that theorems can hypothesise exactly the store behaviour a claim talks
about (e.g. "the write is rejected with statusCode 409"). -/

/-- A request issued to the store. -/
inductive StoreReq where
  | get (id : String)
  | insert (doc : Doc)
  | destroy (id : String) (rev : String)
  | find (selector : J) (limit : Option Nat) (skipN : Option Nat)
      (sort : List (String × String)) (bookmark : Option String)
deriving Repr, DecidableEq

/-- A store response consumed from the oracle trace. -/
inductive StoreResp where
  | doc (d : Doc)
  | inserted (id : String) (rev : String)
  | destroyed
  | found (docs : List Doc) (bookmark : Option String)
  | err (statusCode : Nat) (error : String)
deriving Repr, DecidableEq

/-- Errors propagating out of an adapter operation: a rethrown store error
(carrying its `statusCode`/`error`), a `new Error(...)` thrown by the
adapter itself (no status code), or `oracle` — a modelling artifact marking
an ill-shaped oracle trace (never reached under the theorems' traces). -/
inductive AErr where
  | store (statusCode : Nat) (error : String)
  | message (msg : String)
  | oracle
deriving Repr, DecidableEq

/-- An adapter computation: consumes a prefix of the oracle trace, records
the issued requests, and produces a result or a thrown error. -/
def Flow (α : Type) : Type :=
  List StoreResp → List StoreReq × List StoreResp × Except AErr α

/-- Return. -/
def fpure {α : Type} (a : α) : Flow α := fun tr => ([], tr, Except.ok a)

/-- Throw. -/
def fraise {α : Type} (e : AErr) : Flow α := fun tr => ([], tr, Except.error e)

/-- Sequencing (`await` chaining): errors short-circuit. -/
def fbind {α β : Type} (x : Flow α) (f : α → Flow β) : Flow β := fun tr =>
  match x tr with
  | (reqs, tr2, Except.ok a) =>
    match f a tr2 with
    | (reqs2, tr3, res) => (reqs ++ reqs2, tr3, res)
  | (reqs, tr2, Except.error e) => (reqs, tr2, Except.error e)

/-- `try \x7b body \x7d catch (e) \x7b handler \x7d`. -/
def fcatch {α : Type} (x : Flow α) (h : AErr → Flow α) : Flow α := fun tr =>
  match x tr with
  | (reqs, tr2, Except.error e) =>
    match h e tr2 with
    | (reqs2, tr3, res) => (reqs ++ reqs2, tr3, res)
  | ok => ok

/-- Issue one request and take the next oracle response. -/
def callStore (req : StoreReq) : Flow StoreResp := fun tr =>
  match tr with
  | [] => ([req], [], Except.error AErr.oracle)
  | r :: rest => ([req], rest, Except.ok r)

/-- `db.get(id)`: resolves to a document or rejects with a store error. -/
def dbGet (id : String) : Flow Doc :=
  fbind (callStore (StoreReq.get id)) (fun r =>
    match r with
    | StoreResp.doc d => fpure d
    | StoreResp.err c e => fraise (AErr.store c e)
    | _ => fraise AErr.oracle)

/-- `db.insert(doc)`: resolves to `\x7bid, rev\x7d` or rejects. -/
def dbInsert (d : Doc) : Flow (String × String) :=
  fbind (callStore (StoreReq.insert d)) (fun r =>
    match r with
    | StoreResp.inserted id rev => fpure (id, rev)
    | StoreResp.err c e => fraise (AErr.store c e)
    | _ => fraise AErr.oracle)

/-- `db.destroy(id, rev)`. -/
def dbDestroy (id rev : String) : Flow Unit :=
  fbind (callStore (StoreReq.destroy id rev)) (fun r =>
    match r with
    | StoreResp.destroyed => fpure ()
    | StoreResp.err c e => fraise (AErr.store c e)
    | _ => fraise AErr.oracle)

/-- `db.find(query)`: resolves to `\x7bdocs, bookmark?\x7d` or rejects. -/
def dbFind (selector : J) (limit skipN : Option Nat)
    (sort : List (String × String)) (bookmark : Option String) :
    Flow (List Doc × Option String) :=
  fbind (callStore (StoreReq.find selector limit skipN sort bookmark)) (fun r =>
    match r with
    | StoreResp.found docs bk => fpure (docs, bk)
    | StoreResp.err c e => fraise (AErr.store c e)
    | _ => fraise AErr.oracle)

/-! ### create (src/index.ts lines 1160-1222) -/

/-- create's input encoding (lines 1165-1181): merge the transformed data
over the original, derive `_id` from `id`, and under the shared-database
topology stamp the `betterAuthModel` discriminator. -/
def createEncode (data : Doc) (model : String) (useModelAsDatabase : Bool) : Doc :=
  let t0 := jsSpread data (transformInput data)
  let t1 :=
    if ¬ truthy (jsGet t0 "_id") ∧ truthy (jsGet t0 "id") then
      jsSet t0 "_id" (jsGet t0 "id")
    else t0
  if ¬ useModelAsDatabase then jsSet t1 "betterAuthModel" (J.str model)
  else t1

/-- create's try body (lines 1183-1199): insert, fetch, decode. -/
def createTryBody (tdata : Doc) : Flow Doc :=
  fbind (dbInsert tdata) (fun ir =>
  fbind (dbGet ir.1) (fun fullDoc =>
  fpure (decodeDoc fullDoc)))

/-- create's conflict-replace retry (lines 1202-1216): fetch the existing
document under the explicit `_id`, destroy it at its current revision,
retry the insert once, fetch and decode. -/
def createRetry (tdata : Doc) : Flow Doc :=
  let docId := jsToString (jsGet tdata "_id")
  fbind (dbGet docId) (fun existing =>
  fbind (dbDestroy docId (revOrEmptyStr existing)) (fun _ =>
  fbind (dbInsert tdata) (fun ir =>
  fbind (dbGet ir.1) (fun fullDoc =>
  fpure (decodeDoc fullDoc)))))

/-- create (lines 1160-1222): try body; a 409 with an explicit `_id` takes
the replace retry (whose failures propagate unchanged); any other failure
propagates unchanged. -/
def createFlow (data : Doc) (model : String) (useModelAsDatabase : Bool) : Flow Doc :=
  let tdata := createEncode data model useModelAsDatabase
  fcatch (createTryBody tdata) (fun e =>
    match e with
    | AErr.store code msg =>
      if code = 409 ∧ truthy (jsGet tdata "_id") = true then createRetry tdata
      else fraise (AErr.store code msg)
    | other => fraise other)

/-! ### update (src/index.ts lines 1284-1341): the write phase, after the
target document id has been resolved from the where clause. -/

/-- update's try body (lines 1284-1312): fetch, discriminator check, merge
pinning `_id`/`_rev` to the fetched values, write, re-fetch, decode. -/
def updateTryBody (docId : String) (tdata : Doc) (model : String)
    (useModelAsDatabase : Bool) : Flow Doc :=
  fbind (dbGet docId) (fun existing =>
    if betterAuthModelMismatch useModelAsDatabase existing model then
      fraise (AErr.message ("Document not found for update in model " ++ model))
    else
      fbind (dbInsert (mergeUpdate existing tdata)) (fun ir =>
      fbind (dbGet ir.1) (fun fullDoc =>
      fpure (decodeDoc fullDoc))))

/-- update's single conflict retry (lines 1318-1337): re-fetch, re-merge
pinning `_id`/`_rev` to the freshly fetched values, re-write, decode.  Any
error raised here propagates to the caller unchanged. -/
def updateRetry (docId : String) (tdata : Doc) : Flow Doc :=
  fbind (dbGet docId) (fun existing =>
  fbind (dbInsert (mergeUpdate existing tdata)) (fun ir =>
  fbind (dbGet ir.1) (fun fullDoc =>
  fpure (decodeDoc fullDoc))))

/-- update's write phase with its catch (lines 1313-1341): 404 becomes a
"Document not found" error, 409 runs the single retry, anything else
rethrows. -/
def updateWriteFlow (docId : String) (tdata : Doc) (model : String)
    (useModelAsDatabase : Bool) : Flow Doc :=
  fcatch (updateTryBody docId tdata model useModelAsDatabase) (fun e =>
    match e with
    | AErr.store code msg =>
      if code = 404 then fraise (AErr.message ("Document not found: " ++ docId))
      else if code = 409 then updateRetry docId tdata
      else fraise (AErr.store code msg)
    | other => fraise other)

/-! ### updateMany (src/index.ts lines 1344-1404) -/

/-- updateMany's per-document loop (lines 1373-1395): each matched document
is merged and written independently in order; a 409 on one document is
swallowed without incrementing the count; any other error aborts. -/
def updateManyLoop (tdata : Doc) : List Doc → Nat → Flow Nat
  | [], count => fpure count
  | d :: ds, count =>
    fbind
      (fcatch (fbind (dbInsert (mergeUpdate d tdata)) (fun _ => fpure 1))
        (fun e =>
          match e with
          | AErr.store code msg =>
            if code ≠ 409 then fraise (AErr.store code msg) else fpure 0
          | other => fraise other))
      (fun inc => updateManyLoop tdata ds (count + inc))

/-- updateMany (lines 1344-1404): find all matching documents (selector
augmented with the discriminator under shared topology), then the loop. -/
def updateManyFlow (sel : J) (tdata : Doc) (model : String)
    (useModelAsDatabase : Bool) : Flow Nat :=
  let selector := addModelFilter useModelAsDatabase sel model
  fbind (dbFind selector none none [] none) (fun fr =>
    updateManyLoop tdata fr.1 0)

/-! ### delete (src/index.ts lines 1406-1482) -/

/-- delete's target resolution (lines 1413-1457): a direct id from the
where clause, otherwise a limit-1 find; no match resolves to `none` (the
operation returns successfully without touching the store again). -/
def deleteResolve (docId? : Option String) (sel : J) (model : String)
    (useModelAsDatabase : Bool) : Flow (Option String) :=
  match docId? with
  | some id => fpure (some id)
  | none =>
    let selector := addModelFilter useModelAsDatabase sel model
    fbind (dbFind selector (some 1) none [] none) (fun fr =>
      match fr.1 with
      | [] => fpure none
      | d :: _ => fpure (some (jsToString (jsGet d "_id"))))

/-- delete's try body (lines 1459-1471): fetch, discriminator check (a
mismatch returns silently), revision-checked destroy. -/
def deleteTryBody (docId : String) (model : String)
    (useModelAsDatabase : Bool) : Flow Unit :=
  fbind (dbGet docId) (fun doc =>
    if betterAuthModelMismatch useModelAsDatabase doc model then fpure ()
    else
      fbind (dbDestroy (jsToString (jsGet doc "_id")) (revOrEmptyStr doc))
        (fun _ => fpure ()))

/-- delete (lines 1406-1482): resolution, then the try body under a catch
that converts any 404 into a silent success; other errors rethrow. -/
def deleteFlow (docId? : Option String) (sel : J) (model : String)
    (useModelAsDatabase : Bool) : Flow Unit :=
  fbind (deleteResolve docId? sel model useModelAsDatabase) (fun r =>
    match r with
    | none => fpure ()
    | some docId =>
      fcatch (deleteTryBody docId model useModelAsDatabase) (fun e =>
        match e with
        | AErr.store code msg =>
          if code = 404 then fpure () else fraise (AErr.store code msg)
        | other => fraise other))

/-! ### findOne (src/index.ts lines 1531-1587) -/

/-- findOne's direct point-lookup path (lines 1541-1556): fetch by id,
reject on discriminator mismatch, decode; the catch (lines 1578-1586)
converts a 404 into `null`. -/
def findOneByIdFlow (docId : String) (model : String)
    (useModelAsDatabase : Bool) : Flow (Option Doc) :=
  fcatch
    (fbind (dbGet docId) (fun doc =>
      if betterAuthModelMismatch useModelAsDatabase doc model then fpure none
      else fpure (some (decodeDoc doc))))
    (fun e =>
      match e with
      | AErr.store code msg =>
        if code = 404 then fpure none else fraise (AErr.store code msg)
      | other => fraise other)

/-- findOne's selector path (lines 1558-1577): limit-1 find over the
discriminator-augmented selector; zero matches yield `null`. -/
def findOneSelectorFlow (sel : J) (model : String)
    (useModelAsDatabase : Bool) : Flow (Option Doc) :=
  let selector := addModelFilter useModelAsDatabase sel model
  fcatch
    (fbind (dbFind selector (some 1) none [] none) (fun fr =>
      match fr.1 with
      | [] => fpure none
      | d :: _ => fpure (some (decodeDoc d))))
    (fun e =>
      match e with
      | AErr.store code msg =>
        if code = 404 then fpure none else fraise (AErr.store code msg)
      | other => fraise other)

/-! ### findMany (src/index.ts lines 1589-1709) -/

/-- One key step of findMany's in-memory sort comparator (lines 1672-1687):
missing/null values compare after present ones, and the final value is
negated for a descending key — including the missing-value case. -/
def cmpKey (dir : String) (aVal bVal : J) : Int :=
  let comparison : Int :=
    if isNullish aVal then 1
    else if isNullish bVal then -1
    else if jsLt aVal bVal then -1
    else if jsLt bVal aVal then 1
    else 0
  if dir = "desc" then -comparison else comparison

/-- findMany's in-memory comparator: keys in order, first non-zero wins. -/
def jsCompare (orderBy : List (String × String)) (a b : Doc) : Int :=
  match orderBy with
  | [] => 0
  | (fname, dir) :: rest =>
    let c := cmpKey dir (jsGet a fname) (jsGet b fname)
    if c = 0 then jsCompare rest a b else c

/-- Insert into a sorted prefix: the element stays before the first element
it does not compare after (comparator result ≤ 0 keeps original order). -/
def jsInsert (cmp : Doc → Doc → Int) (x : Doc) : List Doc → List Doc
  | [] => [x]
  | y :: ys => if cmp x y ≤ 0 then x :: y :: ys else y :: jsInsert cmp x ys

/-- `Array.prototype.sort(cmp)`, modelled as a stable insertion sort (the
engine's sort is stable; for a consistent comparator the results agree). -/
def jsSortDocs (cmp : Doc → Doc → Int) : List Doc → List Doc
  | [] => []
  | x :: xs => jsInsert cmp x (jsSortDocs cmp xs)

/-- findMany (lines 1589-1709): compile-side selector augmentation, a find
with sort/limit/skip, and on a `400 no_usable_index` failure the fallback:
re-fetch without sort/skip (the limit is kept), then in-memory sort and
in-memory offset slicing. -/
def findManyFlow (sel : J) (model : String) (useModelAsDatabase : Bool)
    (limit offset : Option Nat) (orderBy : List (String × String)) :
    Flow (List Doc) :=
  let selector := findManySelector useModelAsDatabase sel model
  let sortSpec := orderBy.map (fun o => (o.1, if o.2 = "desc" then "desc" else "asc"))
  fcatch
    (fbind (dbFind selector limit offset sortSpec none) (fun fr =>
      fpure (fr.1.map decodeDoc)))
    (fun e =>
      match e with
      | AErr.store c msg =>
        if c = 400 ∧ msg = "no_usable_index" then
          fbind (dbFind selector limit none [] none) (fun fr =>
            let needsInMemoryOffset :=
              match offset with
              | some n => n ≠ 0
              | none => false
            let docs1 :=
              if ¬ orderBy.isEmpty then jsSortDocs (jsCompare orderBy) fr.1 else fr.1
            let docs2 :=
              if needsInMemoryOffset && decide (0 < offset.getD 0) then
                docs1.drop (offset.getD 0)
              else docs1
            fpure (docs2.map decodeDoc))
        else fraise (AErr.store c msg)
      | other => fraise other)

/-! ### count (src/index.ts lines 1711-1763) -/

/-- Truthiness of `result.bookmark`. -/
def bookmarkTruthy : Option String → Bool
  | none => false
  | some s => s ≠ ""

/-- count's paging loop (lines 1734-1754): request pages of the fixed page
size 1000 following the bookmark, accumulating the returned-document
count, stopping when a page has a falsy bookmark or zero documents. -/
def countLoop (selector : J) :
    Option String → Nat → List StoreResp →
    List StoreReq × List StoreResp × Except AErr Nat
  | bookmark, _, [] =>
    ([StoreReq.find selector (some 1000) none [] bookmark], [],
      Except.error AErr.oracle)
  | bookmark, total, r :: rest =>
    let req := StoreReq.find selector (some 1000) none [] bookmark
    match r with
    | StoreResp.found docs bk =>
      let total2 := total + docs.length
      if ¬ bookmarkTruthy bk ∨ docs.isEmpty then ([req], rest, Except.ok total2)
      else
        match countLoop selector bk total2 rest with
        | (reqs, tr, res) => (req :: reqs, tr, res)
    | StoreResp.err c e => ([req], rest, Except.error (AErr.store c e))
    | _ => ([req], rest, Except.error AErr.oracle)

/-- count (lines 1711-1763): discriminator-augmented selector, then the
paging loop starting with no bookmark and total 0. -/
def countFlow (sel : J) (model : String) (useModelAsDatabase : Bool) : Flow Nat :=
  fun tr => countLoop (addModelFilter useModelAsDatabase sel model) none 0 tr

/-! ### Specification-side definitions

These follow the spec's words (not the source) and exist only to be
compared against the embedded code. -/

/-- Scanner state for `escapedProperly`: the flag records whether the
previous character was an escaping backslash (a dangling escape at the end
of input is rejected). -/
def escapedFrom : Bool → List Char → Bool
  | esc, [] => !esc
  | true, _ :: rest => escapedFrom false rest
  | false, c :: rest =>
    if c = '\\' then escapedFrom true rest
    else !isRegexMeta c && escapedFrom false rest

/-- A character list in which no regex metacharacter appears unescaped:
a backslash escapes the character after it; every other character must be
a non-metacharacter. -/
def escapedProperly (l : List Char) : Bool := escapedFrom false l

/-- `[g]` for a non-empty pending OR group, `[]` for none. -/
def flushGroup : List Cond → List (List Cond)
  | [] => []
  | g => [g]

/-- One step of the connector grouping: a condition whose connector is
`OR` joins the open group; any other condition closes that group and
stands alone as a conjunct. -/
def orGroupStep (acc : List (List Cond) × List Cond) (c : Cond) :
    List (List Cond) × List Cond :=
  if c.connector = some "OR" then (acc.1, acc.2 ++ [c])
  else (acc.1 ++ flushGroup acc.2 ++ [[c]], [])

/-- The connector grouping of a flat condition sequence, as the code
implements it: consecutive OR-connected conditions form one group; every
other condition is its own singleton group. -/
def orGroups (cs : List Cond) : List (List Cond) :=
  let st := cs.foldl orGroupStep ([], [])
  st.1 ++ flushGroup st.2

/-- Direct evaluation of one equality condition on a document. -/
def evalCondEq (doc : Doc) (c : Cond) : Bool :=
  jsGet doc c.field = c.value

/-- Direct evaluation of the boolean expression implied by a flat condition
sequence: the conjunction over connector groups of the disjunction within
each group. -/
def evalWhereSeq (cs : List Cond) (doc : Doc) : Bool :=
  (orGroups cs).all (fun g => g.any (evalCondEq doc))

/-- The conditions covered by the compile/match equivalence theorem:
equality operator, and a plain field name (none of the names the compiler
or the selector language treats specially). -/
def plainEqCond (c : Cond) : Bool :=
  (c.operator = "eq" ∨ c.operator = "equals") &&
  c.field ≠ "" && c.field ≠ "id" && c.field ≠ "AND" && c.field ≠ "OR" &&
  c.field ≠ "$and" && c.field ≠ "$or"

/-- The record a connector group contributes to the output of
`convertWhereArrayToRecord`: a singleton group degenerates to its bare
condition object, a larger group becomes an `OR` node. -/
def groupToJ : List Cond → J
  | [c] => condObj c
  | g => J.obj [("OR", J.arr (g.map condObj))]

/-- A value that is a number, or missing/null. -/
def intOrNull (v : J) : Prop :=
  (∃ n, v = J.int n) ∨ isNullish v = true

/-- A value that is a string, or missing/null. -/
def strOrNull (v : J) : Prop :=
  (∃ s, v = J.str s) ∨ isNullish v = true

/-- A sort key along which every document's value is uniformly a number or
uniformly a string (missing/null allowed): the scope in which the sort
comparator is consistent. -/
def uniformKey (f : String) (docs : List Doc) : Prop :=
  (∀ a ∈ docs, intOrNull (jsGet a f)) ∨ (∀ a ∈ docs, strOrNull (jsGet a f))

/-- The amended per-key strict precedence: under a descending key,
missing/null values precede present ones and present values descend; under
any other direction (ascending, the default), present values precede
missing/null ones and ascend. -/
def keyStrictBefore (dir : String) (u v : J) : Prop :=
  if dir = "desc" then
    (isNullish u = true ∧ isNullish v = false) ∨
    (isNullish u = false ∧ isNullish v = false ∧ jsLt v u = true)
  else
    (isNullish u = false ∧ isNullish v = true) ∨
    (isNullish u = false ∧ isNullish v = false ∧ jsLt u v = true)

/-- The amended ordering on documents for an orderBy list: document `a`
may precede document `b` when, at the first sort key, both values are
missing/null, or `a`'s value strictly precedes `b`'s, or both are equal
present values and the remaining sort keys allow it (ties between equal
present values are broken by the next sort key in order). -/
def lexLe (orderBy : List (String × String)) (a b : Doc) : Prop :=
  match orderBy with
  | [] => True
  | (f, dir) :: rest =>
    (isNullish (jsGet a f) = true ∧ isNullish (jsGet b f) = true) ∨
    keyStrictBefore dir (jsGet a f) (jsGet b f) ∨
    (isNullish (jsGet a f) = false ∧ jsGet a f = jsGet b f ∧ lexLe rest a b)

/-! ### Concrete inputs used by counterexamples and witnesses -/

/-- The mixed-connector sequence from the claim:
`[A:eq:1, then B:eq:2 with connector OR, then C:eq:3 with connector AND]`. -/
def c1ExampleSeq : List Cond :=
  [⟨"A", "eq", J.int 1, none⟩,
   ⟨"B", "eq", J.int 2, some "OR"⟩,
   ⟨"C", "eq", J.int 3, some "AND"⟩]

/-- A document with `A = 1` and `C = 3`. -/
def c1DocAC : Doc := [("A", J.int 1), ("C", J.int 3)]

/-- A document with `B = 2` and `C = 3`. -/
def c1DocBC : Doc := [("B", J.int 2), ("C", J.int 3)]

/-- A stored document whose `age` is present (5). -/
def c2DocA : Doc := [("_id", J.str "a"), ("_rev", J.str "1"), ("age", J.int 5)]

/-- A stored document with no `age` field. -/
def c2DocB : Doc := [("_id", J.str "b"), ("_rev", J.str "1")]

/-- A stored document used by witnesses (revision 1). -/
def wDoc1 : Doc := [("_id", J.str "d1"), ("_rev", J.str "1-a"), ("name", J.str "x")]

/-- A stored document used by witnesses (revision 2, a concurrent write). -/
def wDoc2 : Doc := [("_id", J.str "d1"), ("_rev", J.str "2-b"), ("name", J.str "y")]

/-- A stored document used by witnesses (revision 3, the final state). -/
def wDoc3 : Doc := [("_id", J.str "d1"), ("_rev", J.str "3-c"), ("name", J.str "z")]

/-- Update data used by witnesses. -/
def wData : Doc := [("name", J.str "z")]

/-- A stored document carrying no `betterAuthModel` field. -/
def wDocNoTag : Doc := [("_id", J.str "d1"), ("_rev", J.str "1-a")]

/-- A stored document with age 5, used by the findMany fallback witness. -/
def wAge5 : Doc := [("_id", J.str "u5"), ("age", J.int 5)]

/-- A stored document with age 7, used by the findMany fallback witness. -/
def wAge7 : Doc := [("_id", J.str "u7"), ("age", J.int 7)]

/-- Whether a store response is a successful insert acknowledgement. -/
def isInsertedResp : StoreResp → Bool
  | StoreResp.inserted _ _ => true
  | _ => false

/-! ## Theorems -/

/-! ### Object-primitive lemmas -/

theorem jsGet_map_repl (ps : Doc) (k k' : String) (v : J) (h : k' ≠ k) :
    jsGet (ps.map (fun p => if p.1 = k then (k, v) else p)) k' = jsGet ps k' := by
  induction ps with
  | nil => rfl
  | cons p ps ih =>
    by_cases hp : p.1 = k
    · simp [jsGet, hp, Ne.symm h, ih]
    · simp [jsGet, hp, ih]

theorem jsGet_map_repl_self (ps : Doc) (k : String) (v : J)
    (h : ps.any (fun p => p.1 = k) = true) :
    jsGet (ps.map (fun p => if p.1 = k then (k, v) else p)) k = v := by
  induction ps with
  | nil => simp at h
  | cons p ps ih =>
    by_cases hp : p.1 = k
    · simp [jsGet, hp]
    · simp only [List.any_cons, Bool.or_eq_true, decide_eq_true_eq] at h
      rcases h with h | h
      · exact absurd h hp
      · simpa [jsGet, hp] using ih h

theorem jsGet_append (a b : Doc) (k : String) :
    jsGet (a ++ b) k = if a.any (fun p => p.1 = k) then jsGet a k else jsGet b k := by
  induction a with
  | nil => simp [jsGet]
  | cons p ps ih =>
    by_cases hp : p.1 = k
    · simp [jsGet, hp]
    · have h1 : jsGet ((p :: ps) ++ b) k = jsGet (ps ++ b) k := by
        simp [jsGet, hp]
      rw [h1, ih, List.any_cons, decide_eq_false hp, Bool.false_or]
      simp [jsGet, hp]

theorem jsGet_of_not_any (o : Doc) (k : String)
    (h : ¬ o.any (fun p => p.1 = k) = true) : jsGet o k = J.undef := by
  induction o with
  | nil => rfl
  | cons p ps ih =>
    simp only [List.any_cons, Bool.or_eq_true, decide_eq_true_eq, not_or] at h
    simp [jsGet, h.1, ih (by simpa using h.2)]

theorem jsGet_jsSet_self (o : Doc) (k : String) (v : J) : jsGet (jsSet o k v) k = v := by
  unfold jsSet
  by_cases h : o.any (fun p => p.1 = k)
  · simpa [h] using jsGet_map_repl_self o k v h
  · simp [h, jsGet_append, jsGet]

theorem jsGet_jsSet_ne (o : Doc) (k k' : String) (v : J) (h : k' ≠ k) :
    jsGet (jsSet o k v) k' = jsGet o k' := by
  unfold jsSet
  by_cases hany : o.any (fun p => p.1 = k)
  · simpa [hany] using jsGet_map_repl o k k' v h
  · simp only [hany, Bool.false_eq_true, if_false]
    rw [jsGet_append]
    by_cases h2 : o.any (fun p => p.1 = k')
    · simp [h2]
    · simp only [h2, Bool.false_eq_true, if_false, jsGet, Ne.symm h, if_false]
      rw [jsGet_of_not_any o k' h2]

theorem mem_jsSet (o : Doc) (k : String) (v : J) : (k, v) ∈ jsSet o k v := by
  unfold jsSet
  by_cases h : o.any (fun p => p.1 = k)
  · simp only [h, if_true]
    simp only [List.any_eq_true, decide_eq_true_eq] at h
    obtain ⟨p, hp, hk⟩ := h
    exact List.mem_map.mpr ⟨p, hp, by simp [hk]⟩
  · simp [h]

/-! ### Matcher lemmas -/

theorem mangoEntries_false_of_mem (doc : Doc) (entries : List (String × J))
    (k : String) (v : J) (hmem : (k, v) ∈ entries)
    (hfalse : mangoEntry doc k v = false) :
    mangoEntries doc entries = false := by
  induction entries with
  | nil => simp at hmem
  | cons p ps ih =>
    rcases List.mem_cons.mp hmem with h | h
    · rw [← h] at *
      simp [mangoEntries, hfalse]
    · cases p with
      | mk k' v' => simp [mangoEntries, ih h]

theorem mangoAll_false_of_mem (doc : Doc) (l : List J) (s : J)
    (hmem : s ∈ l) (hfalse : mangoMatches doc s = false) :
    mangoAll doc l = false := by
  induction l with
  | nil => simp at hmem
  | cons x xs ih =>
    rcases List.mem_cons.mp hmem with h | h
    · rw [← h]
      simp [mangoAll, hfalse]
    · simp [mangoAll, ih h]

/-! ### Claim C3 — update retries a conflicted write exactly once -/

/-- C3: an update whose write is rejected with a revision conflict
(statusCode 409) retries exactly once — re-fetching the current document,
re-merging the new field values over it with `_id` and `_rev` pinned to the
freshly fetched values, and re-writing; if the retry's write raises a
second conflict, that error propagates to the caller and no further retry
occurs. -/
theorem update_conflict_retry_once
    (docId : String) (tdata : Doc) (model : String) (shared : Bool)
    (e0 e1 f : Doc) (m1 m2 : String) (id2 rev2 : String) (rest : List StoreResp)
    (h0 : betterAuthModelMismatch shared e0 model = false) :
    (updateWriteFlow docId tdata model shared
        ([StoreResp.doc e0, StoreResp.err 409 m1, StoreResp.doc e1,
          StoreResp.inserted id2 rev2, StoreResp.doc f] ++ rest)
      = ([StoreReq.get docId, StoreReq.insert (mergeUpdate e0 tdata),
          StoreReq.get docId, StoreReq.insert (mergeUpdate e1 tdata),
          StoreReq.get id2],
         rest, Except.ok (decodeDoc f))) ∧
    (jsGet (mergeUpdate e1 tdata) "_id" = jsGet e1 "_id" ∧
     jsGet (mergeUpdate e1 tdata) "_rev" = jsGet e1 "_rev") ∧
    (updateWriteFlow docId tdata model shared
        ([StoreResp.doc e0, StoreResp.err 409 m1, StoreResp.doc e1,
          StoreResp.err 409 m2] ++ rest)
      = ([StoreReq.get docId, StoreReq.insert (mergeUpdate e0 tdata),
          StoreReq.get docId, StoreReq.insert (mergeUpdate e1 tdata)],
         rest, Except.error (AErr.store 409 m2))) := by
  refine ⟨?_, ⟨?_, ?_⟩, ?_⟩
  · simp [updateWriteFlow, updateTryBody, updateRetry, fcatch, fbind, fpure,
      fraise, dbGet, dbInsert, callStore, h0]
  · rw [mergeUpdate, jsGet_jsSet_ne _ _ _ _ (by decide), jsGet_jsSet_self]
  · rw [mergeUpdate, jsGet_jsSet_self]
  · simp [updateWriteFlow, updateTryBody, updateRetry, fcatch, fbind, fpure,
      fraise, dbGet, dbInsert, callStore, h0]

/-- Witness: `update_conflict_retry_once` at a concrete conflicting run. -/
theorem update_conflict_retry_once_witness :
    betterAuthModelMismatch false wDoc1 "user" = false ∧
    updateWriteFlow "d1" wData "user" false
        [StoreResp.doc wDoc1, StoreResp.err 409 "conflict", StoreResp.doc wDoc2,
         StoreResp.inserted "d1" "3-c", StoreResp.doc wDoc3]
      = ([StoreReq.get "d1", StoreReq.insert (mergeUpdate wDoc1 wData),
          StoreReq.get "d1", StoreReq.insert (mergeUpdate wDoc2 wData),
          StoreReq.get "d1"],
         [], Except.ok (decodeDoc wDoc3)) :=
  ⟨by decide, by
    have h := update_conflict_retry_once "d1" wData "user" false wDoc1 wDoc2 wDoc3
      "conflict" "c2" "d1" "3-c" [] (by decide)
    simpa using h.1⟩

/-! ### Claim C10 — the discriminator check is lenient for untagged documents -/

/-- C10: under the shared-store topology, the discriminator verification in
update, delete and findOne-by-identifier only rejects when the fetched
document carries a truthy `betterAuthModel`; a stored document lacking the
field is returned by findOne by identifier, mutated by update and removed
by delete, whatever logical model the caller requested. -/
theorem discriminator_check_lenient
    (d : Doc) (model docId : String) (tdata : Doc) (i r : String) (f : Doc)
    (sel : J) (rest : List StoreResp)
    (hbam : jsGet d "betterAuthModel" = J.undef) :
    betterAuthModelMismatch false d model = false ∧
    findOneByIdFlow docId model false (StoreResp.doc d :: rest)
      = ([StoreReq.get docId], rest, Except.ok (some (decodeDoc d))) ∧
    updateWriteFlow docId tdata model false
        ([StoreResp.doc d, StoreResp.inserted i r, StoreResp.doc f] ++ rest)
      = ([StoreReq.get docId, StoreReq.insert (mergeUpdate d tdata),
          StoreReq.get i],
         rest, Except.ok (decodeDoc f)) ∧
    deleteFlow (some docId) sel model false
        ([StoreResp.doc d, StoreResp.destroyed] ++ rest)
      = ([StoreReq.get docId,
          StoreReq.destroy (jsToString (jsGet d "_id")) (revOrEmptyStr d)],
         rest, Except.ok ()) := by
  have hmm : betterAuthModelMismatch false d model = false := by
    simp [betterAuthModelMismatch, hbam, truthy]
  refine ⟨hmm, ?_, ?_, ?_⟩
  · simp [findOneByIdFlow, fcatch, fbind, fpure, fraise, dbGet, callStore, hmm]
  · simp [updateWriteFlow, updateTryBody, fcatch, fbind, fpure, fraise, dbGet,
      dbInsert, callStore, hmm]
  · simp [deleteFlow, deleteResolve, deleteTryBody, fcatch, fbind, fpure,
      fraise, dbGet, dbDestroy, callStore, hmm]

/-- Witness: `discriminator_check_lenient` on an untagged stored document. -/
theorem discriminator_check_lenient_witness :
    jsGet wDocNoTag "betterAuthModel" = J.undef ∧
    findOneByIdFlow "d1" "session" false [StoreResp.doc wDocNoTag]
      = ([StoreReq.get "d1"], [], Except.ok (some (decodeDoc wDocNoTag))) :=
  ⟨by decide, by
    have h := discriminator_check_lenient wDocNoTag "session" "d1" wData "d1" "r"
      wDoc3 (J.obj []) [] (by decide)
    exact h.2.1⟩

/-! ### Claim C4 — create treats a conflicting explicit id as replace -/

/-- C4: a create whose insert fails with a revision conflict (statusCode
409) and whose encoded input carries an explicit `_id` fetches the existing
document under that id, deletes it at its current revision, retries the
insert exactly once, and returns the fetched-and-decoded result; any
failure during the retry, and any non-conflict failure, propagates
unchanged to the caller. -/
theorem create_conflict_replace_retry
    (data : Doc) (model : String) (useModelAsDatabase : Bool)
    (m e2 : String) (c c2 : Nat) (existing f : Doc) (i r : String)
    (rest : List StoreResp)
    (hid : truthy (jsGet (createEncode data model useModelAsDatabase) "_id") = true)
    (hc : c ≠ 409) :
    (createFlow data model useModelAsDatabase
        ([StoreResp.err 409 m, StoreResp.doc existing, StoreResp.destroyed,
          StoreResp.inserted i r, StoreResp.doc f] ++ rest)
      = ([StoreReq.insert (createEncode data model useModelAsDatabase),
          StoreReq.get
            (jsToString (jsGet (createEncode data model useModelAsDatabase) "_id")),
          StoreReq.destroy
            (jsToString (jsGet (createEncode data model useModelAsDatabase) "_id"))
            (revOrEmptyStr existing),
          StoreReq.insert (createEncode data model useModelAsDatabase),
          StoreReq.get i],
         rest, Except.ok (decodeDoc f))) ∧
    (createFlow data model useModelAsDatabase
        ([StoreResp.err 409 m, StoreResp.doc existing, StoreResp.destroyed,
          StoreResp.err c2 e2] ++ rest)
      = ([StoreReq.insert (createEncode data model useModelAsDatabase),
          StoreReq.get
            (jsToString (jsGet (createEncode data model useModelAsDatabase) "_id")),
          StoreReq.destroy
            (jsToString (jsGet (createEncode data model useModelAsDatabase) "_id"))
            (revOrEmptyStr existing),
          StoreReq.insert (createEncode data model useModelAsDatabase)],
         rest, Except.error (AErr.store c2 e2))) ∧
    (createFlow data model useModelAsDatabase (StoreResp.err c m :: rest)
      = ([StoreReq.insert (createEncode data model useModelAsDatabase)],
         rest, Except.error (AErr.store c m))) := by
  refine ⟨?_, ?_, ?_⟩
  · simp [createFlow, createTryBody, createRetry, fcatch, fbind, fpure, fraise,
      dbGet, dbInsert, dbDestroy, callStore, hid]
  · simp [createFlow, createTryBody, createRetry, fcatch, fbind, fpure, fraise,
      dbGet, dbInsert, dbDestroy, callStore, hid]
  · simp [createFlow, createTryBody, createRetry, fcatch, fbind, fpure, fraise,
      dbGet, dbInsert, dbDestroy, callStore, hc]

/-- Witness: `create_conflict_replace_retry` on a concrete conflicting
create with an explicit id. -/
theorem create_conflict_replace_retry_witness :
    truthy (jsGet (createEncode wDoc1 "user" false) "_id") = true ∧
    createFlow wDoc1 "user" false
        [StoreResp.err 409 "conflict", StoreResp.doc wDoc2, StoreResp.destroyed,
         StoreResp.inserted "d1" "4-d", StoreResp.doc wDoc3]
      = ([StoreReq.insert (createEncode wDoc1 "user" false),
          StoreReq.get (jsToString (jsGet (createEncode wDoc1 "user" false) "_id")),
          StoreReq.destroy
            (jsToString (jsGet (createEncode wDoc1 "user" false) "_id"))
            (revOrEmptyStr wDoc2),
          StoreReq.insert (createEncode wDoc1 "user" false),
          StoreReq.get "d1"],
         [], Except.ok (decodeDoc wDoc3)) :=
  ⟨by decide, by
    have h := create_conflict_replace_retry wDoc1 "user" false "conflict" "e" 500 502
      wDoc2 wDoc3 "d1" "4-d" [] (by decide) (by decide)
    simpa using h.1⟩

/-! ### Claim C6 — delete treats not-found as success, idempotently -/

/-- C6: a delete whose target does not exist returns successfully rather
than erroring: when the filter matches no document the operation returns
after the lookup alone; a 404 from the fetch of the resolved identifier, or
from the remove itself, is swallowed into a successful void return.  The
issued-request lists show no remove is performed (or only one the store
rejected as already gone, leaving stored state unchanged), and each
scenario holds for every trace continuation, so repeating the same delete
against the unchanged store returns successfully again. -/
theorem delete_notfound_success
    (sel : J) (model : String) (useModelAsDatabase : Bool) (docId : String)
    (d : Doc) (bk : Option String) (m m2 : String) (rest : List StoreResp)
    (hmm : betterAuthModelMismatch useModelAsDatabase d model = false) :
    (deleteFlow none sel model useModelAsDatabase
        (StoreResp.found [] bk :: rest)
      = ([StoreReq.find (addModelFilter useModelAsDatabase sel model)
            (some 1) none [] none],
         rest, Except.ok ())) ∧
    (deleteFlow (some docId) sel model useModelAsDatabase
        (StoreResp.err 404 m :: rest)
      = ([StoreReq.get docId], rest, Except.ok ())) ∧
    (deleteFlow (some docId) sel model useModelAsDatabase
        ([StoreResp.doc d, StoreResp.err 404 m2] ++ rest)
      = ([StoreReq.get docId,
          StoreReq.destroy (jsToString (jsGet d "_id")) (revOrEmptyStr d)],
         rest, Except.ok ())) := by
  refine ⟨?_, ?_, ?_⟩
  · simp [deleteFlow, deleteResolve, deleteTryBody, fcatch, fbind, fpure, fraise,
      dbGet, dbDestroy, dbFind, callStore]
  · simp [deleteFlow, deleteResolve, deleteTryBody, fcatch, fbind, fpure, fraise,
      dbGet, dbDestroy, dbFind, callStore]
  · simp [deleteFlow, deleteResolve, deleteTryBody, fcatch, fbind, fpure, fraise,
      dbGet, dbDestroy, dbFind, callStore, hmm]

/-- Witness: `delete_notfound_success` deleting a missing document. -/
theorem delete_notfound_success_witness :
    betterAuthModelMismatch false wDoc1 "user" = false ∧
    deleteFlow (some "d1") (J.obj []) "user" false [StoreResp.err 404 "missing"]
      = ([StoreReq.get "d1"], [], Except.ok ()) :=
  ⟨by decide, by
    have h := delete_notfound_success (J.obj []) "user" false "d1" wDoc1 none
      "missing" "m2" [] (by decide)
    exact h.2.1⟩

/-! ### Claim C5 — updateMany skips conflicts and counts successes -/

theorem updateManyLoop_ok (tdata : Doc) (docs : List Doc) (rs rest : List StoreResp)
    (count : Nat)
    (hlen : rs.length = docs.length)
    (hok : ∀ r ∈ rs, (∃ i v, r = StoreResp.inserted i v) ∨
      ∃ msg, r = StoreResp.err 409 msg) :
    updateManyLoop tdata docs count (rs ++ rest)
      = (docs.map (fun d => StoreReq.insert (mergeUpdate d tdata)), rest,
         Except.ok (count + (rs.filter isInsertedResp).length)) := by
  induction docs generalizing rs count with
  | nil =>
    cases rs with
    | nil => simp [updateManyLoop, fpure]
    | cons r rs' => simp at hlen
  | cons d ds ih =>
    cases rs with
    | nil => simp at hlen
    | cons r rs' =>
      rcases hok r (by simp) with ⟨i, v, hr⟩ | ⟨msg, hr⟩
      · subst hr
        have ihh := ih rs' (count + 1) (by simpa using hlen)
          (fun q hq => hok q (by simp [hq]))
        simp [updateManyLoop, fbind, fcatch, fpure, fraise, dbInsert, callStore,
          ihh, isInsertedResp, List.filter_cons]
        omega
      · subst hr
        have ihh := ih rs' count (by simpa using hlen)
          (fun q hq => hok q (by simp [hq]))
        simp [updateManyLoop, fbind, fcatch, fpure, fraise, dbInsert, callStore,
          ihh, isInsertedResp, List.filter_cons]

theorem updateManyLoop_abort (tdata : Doc) (docs1 : List Doc) (dbad : Doc)
    (ds2 : List Doc) (rs1 : List StoreResp) (c : Nat) (e : String)
    (rest : List StoreResp) (count : Nat)
    (hlen : rs1.length = docs1.length)
    (hok : ∀ r ∈ rs1, (∃ i v, r = StoreResp.inserted i v) ∨
      ∃ msg, r = StoreResp.err 409 msg)
    (hc : c ≠ 409) :
    updateManyLoop tdata (docs1 ++ dbad :: ds2) count
        (rs1 ++ StoreResp.err c e :: rest)
      = ((docs1 ++ [dbad]).map (fun d => StoreReq.insert (mergeUpdate d tdata)),
         rest, Except.error (AErr.store c e)) := by
  induction docs1 generalizing rs1 count with
  | nil =>
    cases rs1 with
    | nil =>
      simp [updateManyLoop, fbind, fcatch, fpure, fraise, dbInsert, callStore, hc]
    | cons r rs' => simp at hlen
  | cons d ds ih =>
    cases rs1 with
    | nil => simp at hlen
    | cons r rs' =>
      rcases hok r (by simp) with ⟨i, v, hr⟩ | ⟨msg, hr⟩
      · subst hr
        have ihh := ih rs' (count + 1) (by simpa using hlen)
          (fun q hq => hok q (by simp [hq]))
        simp [updateManyLoop, fbind, fcatch, fpure, fraise, dbInsert, callStore, ihh]
      · subst hr
        have ihh := ih rs' count (by simpa using hlen)
          (fun q hq => hok q (by simp [hq]))
        simp [updateManyLoop, fbind, fcatch, fpure, fraise, dbInsert, callStore, ihh]

/-- C5: updateMany writes each matched document independently in order; a
per-document write rejected with a revision conflict (statusCode 409) is
skipped without incrementing the count, any per-document non-conflict
failure aborts the whole operation, and the returned number equals exactly
the count of documents whose write succeeded. -/
theorem updateMany_conflict_skip_count
    (sel : J) (tdata : Doc) (model : String) (useModelAsDatabase : Bool)
    (docs : List Doc) (bk : Option String) (rs : List StoreResp)
    (docs1 : List Doc) (dbad : Doc) (ds2 : List Doc) (rs1 : List StoreResp)
    (c : Nat) (e : String) (rest : List StoreResp) :
    (rs.length = docs.length →
     (∀ r ∈ rs, (∃ i v, r = StoreResp.inserted i v) ∨
       ∃ msg, r = StoreResp.err 409 msg) →
     updateManyFlow sel tdata model useModelAsDatabase
         (StoreResp.found docs bk :: (rs ++ rest))
       = (StoreReq.find (addModelFilter useModelAsDatabase sel model)
             none none [] none ::
           docs.map (fun d => StoreReq.insert (mergeUpdate d tdata)),
          rest, Except.ok ((rs.filter isInsertedResp).length))) ∧
    (rs1.length = docs1.length →
     (∀ r ∈ rs1, (∃ i v, r = StoreResp.inserted i v) ∨
       ∃ msg, r = StoreResp.err 409 msg) →
     c ≠ 409 →
     updateManyFlow sel tdata model useModelAsDatabase
         (StoreResp.found (docs1 ++ dbad :: ds2) bk ::
           (rs1 ++ StoreResp.err c e :: rest))
       = (StoreReq.find (addModelFilter useModelAsDatabase sel model)
             none none [] none ::
           (docs1 ++ [dbad]).map (fun d => StoreReq.insert (mergeUpdate d tdata)),
          rest, Except.error (AErr.store c e))) := by
  constructor
  · intro hlen hok
    have L := updateManyLoop_ok tdata docs rs rest 0 hlen hok
    simp only [updateManyFlow, fbind, dbFind, fpure, fraise, callStore] at L ⊢
    simp [L]
  · intro hlen hok hc
    have L := updateManyLoop_abort tdata docs1 dbad ds2 rs1 c e rest 0 hlen hok hc
    simp only [updateManyFlow, fbind, dbFind, fpure, fraise, callStore] at L ⊢
    simp [L]

/-- Witness: `updateMany_conflict_skip_count` over three matched documents
where the middle write conflicts — two writes succeed, count is 2. -/
theorem updateMany_conflict_skip_count_witness :
    updateManyFlow (J.obj []) wData "user" false
        [StoreResp.found [wDoc1, wDoc2, wDoc3] none,
         StoreResp.inserted "d1" "4-d", StoreResp.err 409 "conflict",
         StoreResp.inserted "d1" "5-e"]
      = (StoreReq.find (addModelFilter false (J.obj []) "user") none none [] none ::
          [wDoc1, wDoc2, wDoc3].map (fun d => StoreReq.insert (mergeUpdate d wData)),
         [], Except.ok 2) := by
  have h := (updateMany_conflict_skip_count (J.obj []) wData "user" false
    [wDoc1, wDoc2, wDoc3] none
    [StoreResp.inserted "d1" "4-d", StoreResp.err 409 "conflict",
     StoreResp.inserted "d1" "5-e"]
    [] wDoc1 [] [] 500 "err" []).1 (by decide)
    (by
      intro r hr
      simp only [List.mem_cons, List.not_mem_nil, or_false] at hr
      rcases hr with h | h | h
      · exact Or.inl ⟨"d1", "4-d", h⟩
      · exact Or.inr ⟨"conflict", h⟩
      · exact Or.inl ⟨"d1", "5-e", h⟩)
  simpa using h

/-! ### Claim C8 — count follows pages and returns the exact total -/

theorem countLoop_pages (selector : J) (front : List (List Doc × Option String))
    (lastDocs : List Doc) (lastBk : Option String) (rest : List StoreResp) :
    ∀ bookmark total,
    (∀ p ∈ front, bookmarkTruthy p.2 = true ∧ p.1 ≠ []) →
    (bookmarkTruthy lastBk = false ∨ lastDocs = []) →
    ∃ reqs,
      countLoop selector bookmark total
          (front.map (fun p => StoreResp.found p.1 p.2) ++
            StoreResp.found lastDocs lastBk :: rest)
        = (reqs, rest,
           Except.ok (total + ((front.map (fun p => p.1.length)).sum +
             lastDocs.length))) ∧
      reqs.length = front.length + 1 ∧
      ∀ q ∈ reqs, ∃ bk, q = StoreReq.find selector (some 1000) none [] bk := by
  induction front with
  | nil =>
    intro bookmark total _ hlast
    refine ⟨[StoreReq.find selector (some 1000) none [] bookmark], ?_, by simp, ?_⟩
    · simp only [List.map_nil, List.nil_append, countLoop]
      split
      · simp
      · next hcond2 =>
        exfalso
        rcases hlast with h | h
        · simp [h] at hcond2
        · simp [h] at hcond2
    · intro q hq
      simp only [List.mem_singleton] at hq
      exact ⟨bookmark, hq⟩
  | cons p ps ih =>
    intro bookmark total hfront hlast
    obtain ⟨hbk, hne⟩ := hfront p (by simp)
    obtain ⟨reqs', heq, hlen, hshape⟩ :=
      ih p.2 (total + p.1.length) (fun q hq => hfront q (by simp [hq])) hlast
    refine ⟨StoreReq.find selector (some 1000) none [] bookmark :: reqs', ?_,
      by simp [hlen], ?_⟩
    · simp only [List.map_cons, List.cons_append, countLoop]
      split
      · next hcond3 =>
        exfalso
        rcases hcond3 with h | h
        · exact h (by simpa using hbk)
        · exact hne (by simpa using h)
      · simp only [List.append_eq]
        rw [heq]
        simp only [List.sum_cons, Prod.mk.injEq, Except.ok.injEq, true_and]
        omega
    · intro q hq
      rcases List.mem_cons.mp hq with h | h
      · exact ⟨bookmark, h⟩
      · exact hshape q h

/-- C8: for a count whose store returns the N matching documents across
successive pages of at most the fixed page size (1000) following a
continuation bookmark, the paging loop terminates — stopping at the first
page with a falsy bookmark or zero documents — and returns exactly N; one
page request is issued per page, each with limit 1000. -/
theorem count_pages_exact_total
    (sel : J) (model : String) (useModelAsDatabase : Bool)
    (front : List (List Doc × Option String)) (lastDocs : List Doc)
    (lastBk : Option String) (rest : List StoreResp)
    (hfront : ∀ p ∈ front, bookmarkTruthy p.2 = true ∧ p.1 ≠ [])
    (hlast : bookmarkTruthy lastBk = false ∨ lastDocs = [])
    (hpage : ∀ p ∈ front, p.1.length ≤ 1000) (hpageLast : lastDocs.length ≤ 1000) :
    ∃ reqs,
      countFlow sel model useModelAsDatabase
          (front.map (fun p => StoreResp.found p.1 p.2) ++
            StoreResp.found lastDocs lastBk :: rest)
        = (reqs, rest,
           Except.ok ((front.map (fun p => p.1.length)).sum + lastDocs.length)) ∧
      reqs.length = front.length + 1 ∧
      ∀ q ∈ reqs, ∃ bk,
        q = StoreReq.find (addModelFilter useModelAsDatabase sel model)
          (some 1000) none [] bk := by
  obtain ⟨reqs, heq, hlen, hshape⟩ :=
    countLoop_pages (addModelFilter useModelAsDatabase sel model) front lastDocs
      lastBk rest none 0 hfront hlast
  exact ⟨reqs, by simpa [countFlow] using heq, hlen, hshape⟩

/-- Witness: `count_pages_exact_total` over two pages holding 2 + 1
documents — the total is exactly 3. -/
theorem count_pages_exact_total_witness :
    ∃ reqs,
      countFlow (J.obj []) "user" true
          [StoreResp.found [wDoc1, wDoc2] (some "b1"),
           StoreResp.found [wDoc3] none]
        = (reqs, [], Except.ok 3) ∧
      reqs.length = 2 ∧
      ∀ q ∈ reqs, ∃ bk,
        q = StoreReq.find (addModelFilter true (J.obj []) "user")
          (some 1000) none [] bk := by
  have h := count_pages_exact_total (J.obj []) "user" true
    [([wDoc1, wDoc2], some "b1")] [wDoc3] none []
    (by
      intro p hp
      simp only [List.mem_singleton] at hp
      subst hp
      exact ⟨by decide, by decide⟩)
    (Or.inl (by decide))
    (by
      intro p hp
      simp only [List.mem_singleton] at hp
      subst hp
      decide)
    (by decide)
  simpa using h

/-! ### Claim C9 — the shared-store discriminator isolates models -/

/-- C9: under the shared-store topology every document written by create is
stamped with `betterAuthModel` equal to its model name; count, findOne and
update/delete resolution constrain their selectors by that discriminator,
findMany wraps its selector with it, and findOne's point lookup verifies
the fetched document — hence a document stamped for model `m1` is never
matched or returned when queried for a distinct model `m2`, whatever its
other fields and whatever the base selector. -/
theorem shared_store_model_isolation
    (data : Doc) (m1 m2 : String) (doc : Doc) (s : Doc) (docId : String)
    (rest : List StoreResp)
    (hm : m1 ≠ m2) (hm1 : m1 ≠ "")
    (hdoc : jsGet doc "betterAuthModel" = J.str m1) :
    jsGet (createEncode data m1 false) "betterAuthModel" = J.str m1 ∧
    mangoMatches doc (addModelFilter false (J.obj s) m2) = false ∧
    mangoMatches doc (findManySelector false (J.obj s) m2) = false ∧
    betterAuthModelMismatch false doc m2 = true ∧
    findOneByIdFlow docId m2 false (StoreResp.doc doc :: rest)
      = ([StoreReq.get docId], rest, Except.ok none) := by
  have hentry : mangoEntry doc "betterAuthModel" (J.str m2) = false := by
    simp [mangoEntry, hdoc, hm]
  have hmodelObj : mangoMatches doc (J.obj [("betterAuthModel", J.str m2)]) = false := by
    simp [mangoMatches, mangoEntries, hentry]
  have hmis : betterAuthModelMismatch false doc m2 = true := by
    simp [betterAuthModelMismatch, hdoc, truthy, hm1, hm]
  refine ⟨?_, ?_, ?_, hmis, ?_⟩
  · simp [createEncode, jsGet_jsSet_self]
  · show mangoMatches doc (J.obj (jsSet s "betterAuthModel" (J.str m2))) = false
    rw [show mangoMatches doc (J.obj (jsSet s "betterAuthModel" (J.str m2)))
        = mangoEntries doc (jsSet s "betterAuthModel" (J.str m2)) from rfl]
    exact mangoEntries_false_of_mem doc _ "betterAuthModel" (J.str m2)
      (mem_jsSet s "betterAuthModel" (J.str m2)) hentry
  · unfold findManySelector
    simp only [Bool.false_eq_true, if_false]
    cases hand : jsGet s "$and" with
    | arr xs =>
      rw [show mangoMatches doc
          (J.obj (jsSet s "$and"
            (J.arr (xs ++ [J.obj [("betterAuthModel", J.str m2)]]))))
          = mangoEntries doc (jsSet s "$and"
            (J.arr (xs ++ [J.obj [("betterAuthModel", J.str m2)]]))) from rfl]
      apply mangoEntries_false_of_mem doc _ "$and"
        (J.arr (xs ++ [J.obj [("betterAuthModel", J.str m2)]]))
        (mem_jsSet s "$and" _)
      simp only [mangoEntry, if_true, reduceIte]
      exact mangoAll_false_of_mem doc _ (J.obj [("betterAuthModel", J.str m2)])
        (by simp) hmodelObj
    | undef =>
      by_cases hs : s.isEmpty
      · simp only [hs, if_true]
        rw [show mangoMatches doc (J.obj (jsSet s "betterAuthModel" (J.str m2)))
            = mangoEntries doc (jsSet s "betterAuthModel" (J.str m2)) from rfl]
        exact mangoEntries_false_of_mem doc _ "betterAuthModel" (J.str m2)
          (mem_jsSet s "betterAuthModel" (J.str m2)) hentry
      · simp only [hs, Bool.false_eq_true, if_false]
        simp only [mangoMatches, mangoEntries, mangoEntry, mangoAll, reduceIte]
        simp [hdoc, hm]
    | null =>
      by_cases hs : s.isEmpty
      · simp only [hs, if_true]
        rw [show mangoMatches doc (J.obj (jsSet s "betterAuthModel" (J.str m2)))
            = mangoEntries doc (jsSet s "betterAuthModel" (J.str m2)) from rfl]
        exact mangoEntries_false_of_mem doc _ "betterAuthModel" (J.str m2)
          (mem_jsSet s "betterAuthModel" (J.str m2)) hentry
      · simp only [hs, Bool.false_eq_true, if_false]
        simp only [mangoMatches, mangoEntries, mangoEntry, mangoAll, reduceIte]
        simp [hdoc, hm]
    | bool b =>
      by_cases hs : s.isEmpty
      · simp only [hs, if_true]
        rw [show mangoMatches doc (J.obj (jsSet s "betterAuthModel" (J.str m2)))
            = mangoEntries doc (jsSet s "betterAuthModel" (J.str m2)) from rfl]
        exact mangoEntries_false_of_mem doc _ "betterAuthModel" (J.str m2)
          (mem_jsSet s "betterAuthModel" (J.str m2)) hentry
      · simp only [hs, Bool.false_eq_true, if_false]
        simp only [mangoMatches, mangoEntries, mangoEntry, mangoAll, reduceIte]
        simp [hdoc, hm]
    | int n =>
      by_cases hs : s.isEmpty
      · simp only [hs, if_true]
        rw [show mangoMatches doc (J.obj (jsSet s "betterAuthModel" (J.str m2)))
            = mangoEntries doc (jsSet s "betterAuthModel" (J.str m2)) from rfl]
        exact mangoEntries_false_of_mem doc _ "betterAuthModel" (J.str m2)
          (mem_jsSet s "betterAuthModel" (J.str m2)) hentry
      · simp only [hs, Bool.false_eq_true, if_false]
        simp only [mangoMatches, mangoEntries, mangoEntry, mangoAll, reduceIte]
        simp [hdoc, hm]
    | str sv =>
      by_cases hs : s.isEmpty
      · simp only [hs, if_true]
        rw [show mangoMatches doc (J.obj (jsSet s "betterAuthModel" (J.str m2)))
            = mangoEntries doc (jsSet s "betterAuthModel" (J.str m2)) from rfl]
        exact mangoEntries_false_of_mem doc _ "betterAuthModel" (J.str m2)
          (mem_jsSet s "betterAuthModel" (J.str m2)) hentry
      · simp only [hs, Bool.false_eq_true, if_false]
        simp only [mangoMatches, mangoEntries, mangoEntry, mangoAll, reduceIte]
        simp [hdoc, hm]
    | obj fs =>
      by_cases hs : s.isEmpty
      · simp only [hs, if_true]
        rw [show mangoMatches doc (J.obj (jsSet s "betterAuthModel" (J.str m2)))
            = mangoEntries doc (jsSet s "betterAuthModel" (J.str m2)) from rfl]
        exact mangoEntries_false_of_mem doc _ "betterAuthModel" (J.str m2)
          (mem_jsSet s "betterAuthModel" (J.str m2)) hentry
      · simp only [hs, Bool.false_eq_true, if_false]
        simp only [mangoMatches, mangoEntries, mangoEntry, mangoAll, reduceIte]
        simp [hdoc, hm]
  · simp [findOneByIdFlow, fcatch, fbind, fpure, fraise, dbGet, callStore, hmis]

/-- Witness: `shared_store_model_isolation` for models `user` and
`session`. -/
theorem shared_store_model_isolation_witness :
    jsGet (createEncode wData "user" false) "betterAuthModel" = J.str "user" ∧
    mangoMatches [("betterAuthModel", J.str "user"), ("email", J.str "x")]
        (addModelFilter false (J.obj [("email", J.str "x")]) "session") = false ∧
    findOneByIdFlow "d1" "session" false
        [StoreResp.doc [("betterAuthModel", J.str "user"), ("email", J.str "x")]]
      = ([StoreReq.get "d1"], [], Except.ok none) := by
  have h := shared_store_model_isolation wData "user" "session"
    [("betterAuthModel", J.str "user"), ("email", J.str "x")]
    [("email", J.str "x")] "d1" [] (by decide) (by decide) (by decide)
  exact ⟨h.1, h.2.1, h.2.2.2.2⟩

/-! ### Claim C2 — findMany's missing-index fallback -/

/-- C2 counterexample: in the missing-index fallback with a descending
sort, the comparator's direction flip applies to the missing-value rule
too, so the document lacking the sort field is returned first — not last,
as the claim requires. -/
theorem findMany_fallback_nulls_counterexample :
    (findManyFlow (J.obj []) "user" true none none [("age", "desc")]
        [StoreResp.err 400 "no_usable_index",
         StoreResp.found [c2DocA, c2DocB] none]).2.2
      = Except.ok [decodeDoc c2DocB, decodeDoc c2DocA] ∧
    [decodeDoc c2DocB, decodeDoc c2DocA] ≠ [decodeDoc c2DocA, decodeDoc c2DocB] :=
  ⟨by rfl, by decide⟩

theorem jsInsert_perm (cmp : Doc → Doc → Int) (x : Doc) (l : List Doc) :
    List.Perm (jsInsert cmp x l) (x :: l) := by
  induction l with
  | nil => simp [jsInsert]
  | cons y ys ih =>
    by_cases h : cmp x y ≤ 0
    · simp [jsInsert, h]
    · simp only [jsInsert, h, if_false]
      exact (ih.cons y).trans (List.Perm.swap x y ys)

theorem jsSortDocs_perm (cmp : Doc → Doc → Int) (l : List Doc) :
    List.Perm (jsSortDocs cmp l) l := by
  induction l with
  | nil => simp [jsSortDocs]
  | cons x xs ih => exact (jsInsert_perm cmp x _).trans (ih.cons x)

theorem jsInsert_pairwise (R : Doc → Doc → Prop) (cmp : Doc → Doc → Int)
    (x : Doc) (l : List Doc)
    (hp : List.Pairwise R l)
    (hcmp1 : ∀ y ∈ l, cmp x y ≤ 0 → R x y)
    (hcmp2 : ∀ y ∈ l, ¬ cmp x y ≤ 0 → R y x)
    (htr : ∀ a ∈ l, ∀ b ∈ l, R x a → R a b → R x b) :
    List.Pairwise R (jsInsert cmp x l) := by
  induction l with
  | nil => simp [jsInsert]
  | cons y ys ih =>
    rcases List.pairwise_cons.mp hp with ⟨hy, hys⟩
    by_cases h : cmp x y ≤ 0
    · simp only [jsInsert, h, if_true]
      refine List.Pairwise.cons ?_ hp
      intro z hz
      rcases List.mem_cons.mp hz with hzy | hz'
      · subst hzy
        exact hcmp1 z (by simp) h
      · exact htr y (by simp) z (by simp [hz']) (hcmp1 y (by simp) h) (hy z hz')
    · simp only [jsInsert, h, if_false]
      refine List.Pairwise.cons ?_
        (ih hys (fun q hq hle => hcmp1 q (by simp [hq]) hle)
          (fun q hq hle => hcmp2 q (by simp [hq]) hle)
          (fun a ha b hb => htr a (by simp [ha]) b (by simp [hb])))
      intro z hz
      have hz2 := (jsInsert_perm cmp x ys).mem_iff.mp hz
      rcases List.mem_cons.mp hz2 with hzx | hz'
      · subst hzx
        exact hcmp2 y (by simp) h
      · exact hy z hz'

theorem jsSortDocs_pairwise (R : Doc → Doc → Prop) (cmp : Doc → Doc → Int)
    (l : List Doc)
    (hcmp1 : ∀ x ∈ l, ∀ y ∈ l, cmp x y ≤ 0 → R x y)
    (hcmp2 : ∀ x ∈ l, ∀ y ∈ l, ¬ cmp x y ≤ 0 → R y x)
    (htr : ∀ x ∈ l, ∀ a ∈ l, ∀ b ∈ l, R x a → R a b → R x b) :
    List.Pairwise R (jsSortDocs cmp l) := by
  induction l with
  | nil => simp [jsSortDocs]
  | cons x xs ih =>
    have hmem : ∀ z ∈ jsSortDocs cmp xs, z ∈ xs :=
      fun z hz => (jsSortDocs_perm cmp xs).mem_iff.mp hz
    exact jsInsert_pairwise R cmp x (jsSortDocs cmp xs)
      (ih (fun a ha b hb => hcmp1 a (by simp [ha]) b (by simp [hb]))
        (fun a ha b hb => hcmp2 a (by simp [ha]) b (by simp [hb]))
        (fun a ha b hb c hc => htr a (by simp [ha]) b (by simp [hb]) c (by simp [hc])))
      (fun y hy => hcmp1 x (by simp) y (by simp [hmem y hy]))
      (fun y hy => hcmp2 x (by simp) y (by simp [hmem y hy]))
      (fun a ha b hb => htr x (by simp) a (by simp [hmem a ha]) b (by simp [hmem b hb]))

theorem cmpKey_desc_int_int (m n : Int) :
    cmpKey "desc" (J.int m) (J.int n)
      = if m < n then 1 else if n < m then -1 else 0 := by
  by_cases h1 : m < n
  · simp [cmpKey, isNullish, jsLt, h1]
  · by_cases h2 : n < m
    · simp [cmpKey, isNullish, jsLt, h1, h2]
    · simp [cmpKey, isNullish, jsLt, h1, h2]

theorem isNullish_eq (v : J) (h : isNullish v = true) :
    v = J.undef ∨ v = J.null := by
  cases v <;> simp [isNullish] at h ⊢

theorem cmpKey_desc_null_left (v w : J) (h : isNullish v = true) :
    cmpKey "desc" v w ≤ 0 := by
  rcases isNullish_eq v h with rfl | rfl <;> simp [cmpKey, isNullish]

theorem cmpKey_desc_int_null (m : Int) (w : J) (h : isNullish w = true) :
    cmpKey "desc" (J.int m) w = 1 := by
  rcases isNullish_eq w h with rfl | rfl <;> simp [cmpKey, isNullish, jsLt]

theorem jsCompare_single (fname dir : String) (a b : Doc) :
    jsCompare [(fname, dir)] a b = cmpKey dir (jsGet a fname) (jsGet b fname) := by
  by_cases h : cmpKey dir (jsGet a fname) (jsGet b fname) = 0
  · simp [jsCompare, h]
  · simp [jsCompare, h]

theorem not_nullish (v : J) (h : ¬ isNullish v = true) : isNullish v = false := by
  cases hh : isNullish v
  · rfl
  · exact absurd hh h

theorem cmpKey_nullish_left (dir : String) (u v : J) (h : isNullish u = true) :
    cmpKey dir u v = if dir = "desc" then -1 else 1 := by
  by_cases hd : dir = "desc" <;> simp [cmpKey, h, hd]

theorem cmpKey_nullish_right (dir : String) (u v : J)
    (hu : isNullish u = false) (hv : isNullish v = true) :
    cmpKey dir u v = if dir = "desc" then 1 else -1 := by
  by_cases hd : dir = "desc" <;> simp [cmpKey, hu, hv, hd]

theorem cmpKey_dir_int_int (dir : String) (m n : Int) :
    cmpKey dir (J.int m) (J.int n)
      = if dir = "desc"
        then (if m < n then 1 else if n < m then -1 else 0)
        else (if m < n then -1 else if n < m then 1 else 0) := by
  by_cases h1 : m < n
  · by_cases hd : dir = "desc" <;> simp [cmpKey, isNullish, jsLt, h1, hd]
  · by_cases h2 : n < m
    · by_cases hd : dir = "desc" <;> simp [cmpKey, isNullish, jsLt, h1, h2, hd]
    · by_cases hd : dir = "desc" <;> simp [cmpKey, isNullish, jsLt, h1, h2, hd]

theorem cmpKey_dir_str_str (dir : String) (s t : String) :
    cmpKey dir (J.str s) (J.str t)
      = if dir = "desc"
        then (if s < t then 1 else if t < s then -1 else 0)
        else (if s < t then -1 else if t < s then 1 else 0) := by
  by_cases h1 : s < t
  · by_cases hd : dir = "desc" <;> simp [cmpKey, isNullish, jsLt, h1, hd]
  · by_cases h2 : t < s
    · by_cases hd : dir = "desc" <;> simp [cmpKey, isNullish, jsLt, h1, h2, hd]
    · by_cases hd : dir = "desc" <;> simp [cmpKey, isNullish, jsLt, h1, h2, hd]

theorem cmpKey_le_cases (dir : String) (u v : J)
    (ht : (intOrNull u ∧ intOrNull v) ∨ (strOrNull u ∧ strOrNull v)) :
    (cmpKey dir u v ≤ 0 →
      (isNullish u = true ∧ isNullish v = true) ∨ keyStrictBefore dir u v ∨
        (cmpKey dir u v = 0 ∧ isNullish u = false ∧ u = v)) ∧
    (¬ cmpKey dir u v ≤ 0 →
      (isNullish u = true ∧ isNullish v = true) ∨ keyStrictBefore dir v u) ∧
    (cmpKey dir u v = 0 → isNullish u = false ∧ isNullish v = false ∧ u = v) := by
  by_cases hnu : isNullish u = true
  · have hck := cmpKey_nullish_left dir u v hnu
    by_cases hnv : isNullish v = true
    · by_cases hd : dir = "desc"
      · rw [hck, if_pos hd]
        exact ⟨fun _ => Or.inl ⟨hnu, hnv⟩,
          fun h => absurd (by omega) h,
          fun h0 => absurd h0 (by omega)⟩
      · rw [hck, if_neg hd]
        exact ⟨fun h => absurd h (by omega),
          fun _ => Or.inl ⟨hnu, hnv⟩,
          fun h0 => absurd h0 (by omega)⟩
    · have hpv := not_nullish v hnv
      by_cases hd : dir = "desc"
      · rw [hck, if_pos hd]
        refine ⟨fun _ => Or.inr (Or.inl ?_),
          fun h => absurd (by omega) h,
          fun h0 => absurd h0 (by omega)⟩
        simp only [keyStrictBefore, if_pos hd]
        exact Or.inl ⟨hnu, hpv⟩
      · rw [hck, if_neg hd]
        refine ⟨fun h => absurd h (by omega),
          fun _ => Or.inr ?_,
          fun h0 => absurd h0 (by omega)⟩
        simp only [keyStrictBefore, if_neg hd]
        exact Or.inl ⟨hpv, hnu⟩
  · have hpu := not_nullish u hnu
    by_cases hnv : isNullish v = true
    · have hck := cmpKey_nullish_right dir u v hpu hnv
      by_cases hd : dir = "desc"
      · rw [hck, if_pos hd]
        refine ⟨fun h => absurd h (by omega),
          fun _ => Or.inr ?_,
          fun h0 => absurd h0 (by omega)⟩
        simp only [keyStrictBefore, if_pos hd]
        exact Or.inl ⟨hnv, hpu⟩
      · rw [hck, if_neg hd]
        refine ⟨fun _ => Or.inr (Or.inl ?_),
          fun h => absurd (by omega) h,
          fun h0 => absurd h0 (by omega)⟩
        simp only [keyStrictBefore, if_neg hd]
        exact Or.inl ⟨hpu, hnv⟩
    · have hpv := not_nullish v hnv
      rcases ht with ⟨hu, hv⟩ | ⟨hu, hv⟩
      · rcases hu with ⟨m, rfl⟩ | hu
        · rcases hv with ⟨n, rfl⟩ | hv
          · have hck := cmpKey_dir_int_int dir m n
            by_cases hd : dir = "desc"
            · rw [hck, if_pos hd]
              by_cases h1 : m < n
              · rw [if_pos h1]
                refine ⟨fun h => absurd h (by omega), fun _ => Or.inr ?_,
                  fun h0 => absurd h0 (by omega)⟩
                simp only [keyStrictBefore, if_pos hd]
                exact Or.inr ⟨hpv, hpu, by simp [jsLt, h1]⟩
              · by_cases h2 : n < m
                · rw [if_neg h1, if_pos h2]
                  refine ⟨fun _ => Or.inr (Or.inl ?_), fun h => absurd (by omega) h,
                    fun h0 => absurd h0 (by omega)⟩
                  simp only [keyStrictBefore, if_pos hd]
                  exact Or.inr ⟨hpu, hpv, by simp [jsLt, h2]⟩
                · rw [if_neg h1, if_neg h2]
                  have heq : m = n := by omega
                  subst heq
                  exact ⟨fun _ => Or.inr (Or.inr ⟨by simp, hpu, rfl⟩),
                    fun h => absurd (by omega) h,
                    fun _ => ⟨hpu, hpv, rfl⟩⟩
            · rw [hck, if_neg hd]
              by_cases h1 : m < n
              · rw [if_pos h1]
                refine ⟨fun _ => Or.inr (Or.inl ?_), fun h => absurd (by omega) h,
                  fun h0 => absurd h0 (by omega)⟩
                simp only [keyStrictBefore, if_neg hd]
                exact Or.inr ⟨hpu, hpv, by simp [jsLt, h1]⟩
              · by_cases h2 : n < m
                · rw [if_neg h1, if_pos h2]
                  refine ⟨fun h => absurd h (by omega), fun _ => Or.inr ?_,
                    fun h0 => absurd h0 (by omega)⟩
                  simp only [keyStrictBefore, if_neg hd]
                  exact Or.inr ⟨hpv, hpu, by simp [jsLt, h2]⟩
                · rw [if_neg h1, if_neg h2]
                  have heq : m = n := by omega
                  subst heq
                  exact ⟨fun _ => Or.inr (Or.inr ⟨by simp, hpu, rfl⟩),
                    fun h => absurd (by omega) h,
                    fun _ => ⟨hpu, hpv, rfl⟩⟩
          · rw [hv] at hpv
            cases hpv
        · rw [hu] at hpu
          cases hpu
      · rcases hu with ⟨s, rfl⟩ | hu
        · rcases hv with ⟨t, rfl⟩ | hv
          · have hck := cmpKey_dir_str_str dir s t
            by_cases hd : dir = "desc"
            · rw [hck, if_pos hd]
              by_cases h1 : s < t
              · rw [if_pos h1]
                refine ⟨fun h => absurd h (by omega), fun _ => Or.inr ?_,
                  fun h0 => absurd h0 (by omega)⟩
                simp only [keyStrictBefore, if_pos hd]
                exact Or.inr ⟨hpv, hpu, by simp [jsLt, h1]⟩
              · by_cases h2 : t < s
                · rw [if_neg h1, if_pos h2]
                  refine ⟨fun _ => Or.inr (Or.inl ?_), fun h => absurd (by omega) h,
                    fun h0 => absurd h0 (by omega)⟩
                  simp only [keyStrictBefore, if_pos hd]
                  exact Or.inr ⟨hpu, hpv, by simp [jsLt, h2]⟩
                · rw [if_neg h1, if_neg h2]
                  have heq : s = t := le_antisymm (not_lt.mp h2) (not_lt.mp h1)
                  subst heq
                  exact ⟨fun _ => Or.inr (Or.inr ⟨by simp, hpu, rfl⟩),
                    fun h => absurd (by omega) h,
                    fun _ => ⟨hpu, hpv, rfl⟩⟩
            · rw [hck, if_neg hd]
              by_cases h1 : s < t
              · rw [if_pos h1]
                refine ⟨fun _ => Or.inr (Or.inl ?_), fun h => absurd (by omega) h,
                  fun h0 => absurd h0 (by omega)⟩
                simp only [keyStrictBefore, if_neg hd]
                exact Or.inr ⟨hpu, hpv, by simp [jsLt, h1]⟩
              · by_cases h2 : t < s
                · rw [if_neg h1, if_pos h2]
                  refine ⟨fun h => absurd h (by omega), fun _ => Or.inr ?_,
                    fun h0 => absurd h0 (by omega)⟩
                  simp only [keyStrictBefore, if_neg hd]
                  exact Or.inr ⟨hpv, hpu, by simp [jsLt, h2]⟩
                · rw [if_neg h1, if_neg h2]
                  have heq : s = t := le_antisymm (not_lt.mp h2) (not_lt.mp h1)
                  subst heq
                  exact ⟨fun _ => Or.inr (Or.inr ⟨by simp, hpu, rfl⟩),
                    fun h => absurd (by omega) h,
                    fun _ => ⟨hpu, hpv, rfl⟩⟩
          · rw [hv] at hpv
            cases hpv
        · rw [hu] at hpu
          cases hpu

theorem jsLt_trans_typed (u v w : J)
    (ht : (intOrNull u ∧ intOrNull v ∧ intOrNull w) ∨
      (strOrNull u ∧ strOrNull v ∧ strOrNull w))
    (h1 : jsLt u v = true) (h2 : jsLt v w = true) : jsLt u w = true := by
  rcases ht with ⟨hu, hv, hw⟩ | ⟨hu, hv, hw⟩
  · rcases hu with ⟨m, rfl⟩ | hu
    · rcases hv with ⟨n, rfl⟩ | hv
      · rcases hw with ⟨p, rfl⟩ | hw
        · simp only [jsLt, decide_eq_true_eq] at h1 h2 ⊢
          omega
        · rcases isNullish_eq _ hw with rfl | rfl <;> simp [jsLt] at h2
      · rcases isNullish_eq _ hv with rfl | rfl <;> simp [jsLt] at h1
    · rcases isNullish_eq _ hu with rfl | rfl <;> simp [jsLt] at h1
  · rcases hu with ⟨s, rfl⟩ | hu
    · rcases hv with ⟨t, rfl⟩ | hv
      · rcases hw with ⟨r, rfl⟩ | hw
        · simp only [jsLt, decide_eq_true_eq] at h1 h2 ⊢
          exact lt_trans h1 h2
        · rcases isNullish_eq _ hw with rfl | rfl <;> simp [jsLt] at h2
      · rcases isNullish_eq _ hv with rfl | rfl <;> simp [jsLt] at h1
    · rcases isNullish_eq _ hu with rfl | rfl <;> simp [jsLt] at h1

theorem uniformKey_pair (f : String) (docs : List Doc) (hu : uniformKey f docs)
    (a : Doc) (ha : a ∈ docs) (b : Doc) (hb : b ∈ docs) :
    (intOrNull (jsGet a f) ∧ intOrNull (jsGet b f)) ∨
    (strOrNull (jsGet a f) ∧ strOrNull (jsGet b f)) := by
  rcases hu with h | h
  · exact Or.inl ⟨h a ha, h b hb⟩
  · exact Or.inr ⟨h a ha, h b hb⟩

theorem uniformKey_triple (f : String) (docs : List Doc) (hu : uniformKey f docs)
    (x : Doc) (hx : x ∈ docs) (a : Doc) (ha : a ∈ docs) (b : Doc) (hb : b ∈ docs) :
    (intOrNull (jsGet x f) ∧ intOrNull (jsGet a f) ∧ intOrNull (jsGet b f)) ∨
    (strOrNull (jsGet x f) ∧ strOrNull (jsGet a f) ∧ strOrNull (jsGet b f)) := by
  rcases hu with h | h
  · exact Or.inl ⟨h x hx, h a ha, h b hb⟩
  · exact Or.inr ⟨h x hx, h a ha, h b hb⟩

theorem jsCompare_le_lexLe (orderBy : List (String × String)) (docs : List Doc)
    (ht : ∀ q ∈ orderBy, uniformKey q.1 docs) :
    ∀ a ∈ docs, ∀ b ∈ docs,
      (jsCompare orderBy a b ≤ 0 → lexLe orderBy a b) ∧
      (¬ jsCompare orderBy a b ≤ 0 → lexLe orderBy b a) := by
  induction orderBy with
  | nil =>
    intro a _ b _
    exact ⟨fun _ => trivial, fun h => absurd (by simp [jsCompare]) h⟩
  | cons q qs ih =>
    intro a ha b hb
    obtain ⟨f, dir⟩ := q
    have hpair := uniformKey_pair f docs (ht (f, dir) (by simp)) a ha b hb
    have K := cmpKey_le_cases dir (jsGet a f) (jsGet b f) hpair
    have ihab := ih (fun q hq => ht q (by simp [hq])) a ha b hb
    simp only [lexLe]
    by_cases h0 : cmpKey dir (jsGet a f) (jsGet b f) = 0
    · have h3 := K.2.2 h0
      constructor
      · intro h
        have hrest : jsCompare qs a b ≤ 0 := by
          simpa [jsCompare, h0] using h
        exact Or.inr (Or.inr ⟨h3.1, h3.2.2, ihab.1 hrest⟩)
      · intro h
        have hrest : ¬ jsCompare qs a b ≤ 0 := by
          intro hc
          exact h (by simpa [jsCompare, h0] using hc)
        exact Or.inr (Or.inr ⟨h3.2.1, h3.2.2.symm, ihab.2 hrest⟩)
    · constructor
      · intro h
        have hc : cmpKey dir (jsGet a f) (jsGet b f) ≤ 0 := by
          simpa [jsCompare, h0] using h
        rcases K.1 hc with hbn | hstrict | ⟨hzero, _, _⟩
        · exact Or.inl hbn
        · exact Or.inr (Or.inl hstrict)
        · exact absurd hzero h0
      · intro h
        have hc : ¬ cmpKey dir (jsGet a f) (jsGet b f) ≤ 0 := by
          intro hcc
          exact h (by simpa [jsCompare, h0] using hcc)
        rcases K.2.1 hc with hbn | hstrict
        · exact Or.inl ⟨hbn.2, hbn.1⟩
        · exact Or.inr (Or.inl hstrict)

theorem lexLe_trans (orderBy : List (String × String)) (docs : List Doc)
    (ht : ∀ q ∈ orderBy, uniformKey q.1 docs) :
    ∀ x ∈ docs, ∀ a ∈ docs, ∀ b ∈ docs,
      lexLe orderBy x a → lexLe orderBy a b → lexLe orderBy x b := by
  induction orderBy with
  | nil => intro x _ a _ b _ _ _; trivial
  | cons q qs ih =>
    intro x hx a ha b hb hxa hab
    obtain ⟨f, dir⟩ := q
    have hqk := ht (f, dir) (by simp)
    have ihstep := ih (fun q hq => ht q (by simp [hq])) x hx a ha b hb
    simp only [lexLe] at hxa hab ⊢
    by_cases hd : dir = "desc"
    · simp only [keyStrictBefore, if_pos hd] at hxa hab ⊢
      rcases hxa with ⟨hnx, hna⟩ | (⟨hnx, hpa⟩ | ⟨hpx, hpa, hltax⟩) | ⟨hpx, heq, hrest⟩
      · rcases hab with ⟨hna2, hnb⟩ | (⟨hna2, hpb⟩ | ⟨hpa2, hpb, hltba⟩) | ⟨hpa3, heq2, hrest2⟩
        · exact Or.inl ⟨hnx, hnb⟩
        · exact Or.inr (Or.inl (Or.inl ⟨hnx, hpb⟩))
        · simp [hna] at hpa2
        · simp [hna] at hpa3
      · rcases hab with ⟨hna2, hnb⟩ | (⟨hna2, hpb⟩ | ⟨hpa2, hpb, hltba⟩) | ⟨hpa3, heq2, hrest2⟩
        · simp [hna2] at hpa
        · simp [hna2] at hpa
        · exact Or.inr (Or.inl (Or.inl ⟨hnx, hpb⟩))
        · refine Or.inr (Or.inl (Or.inl ⟨hnx, ?_⟩))
          rw [← heq2]
          exact hpa
      · rcases hab with ⟨hna2, hnb⟩ | (⟨hna2, hpb⟩ | ⟨hpa2, hpb, hltba⟩) | ⟨hpa3, heq2, hrest2⟩
        · simp [hna2] at hpa
        · simp [hna2] at hpa
        · refine Or.inr (Or.inl (Or.inr ⟨hpx, hpb, ?_⟩))
          exact jsLt_trans_typed _ _ _
            (uniformKey_triple f docs hqk b hb a ha x hx) hltba hltax
        · refine Or.inr (Or.inl (Or.inr ⟨hpx, ?_, ?_⟩))
          · rw [← heq2]
            exact hpa
          · rw [← heq2]
            exact hltax
      · have hpa : isNullish (jsGet a f) = false := by
          rw [← heq]
          exact hpx
        rcases hab with ⟨hna2, hnb⟩ | (⟨hna2, hpb⟩ | ⟨hpa2, hpb, hltba⟩) | ⟨hpa3, heq2, hrest2⟩
        · simp [hna2] at hpa
        · simp [hna2] at hpa
        · refine Or.inr (Or.inl (Or.inr ⟨hpx, hpb, ?_⟩))
          rw [heq]
          exact hltba
        · exact Or.inr (Or.inr ⟨hpx, heq.trans heq2, ihstep hrest hrest2⟩)
    · simp only [keyStrictBefore, if_neg hd] at hxa hab ⊢
      rcases hxa with ⟨hnx, hna⟩ | (⟨hpx, hna⟩ | ⟨hpx, hpa, hltxa⟩) | ⟨hpx, heq, hrest⟩
      · rcases hab with ⟨hna2, hnb⟩ | (⟨hpa2, hnb⟩ | ⟨hpa2, hpb, hltab⟩) | ⟨hpa3, heq2, hrest2⟩
        · exact Or.inl ⟨hnx, hnb⟩
        · simp [hna] at hpa2
        · simp [hna] at hpa2
        · simp [hna] at hpa3
      · rcases hab with ⟨hna2, hnb⟩ | (⟨hpa2, hnb⟩ | ⟨hpa2, hpb, hltab⟩) | ⟨hpa3, heq2, hrest2⟩
        · exact Or.inr (Or.inl (Or.inl ⟨hpx, hnb⟩))
        · simp [hna] at hpa2
        · simp [hna] at hpa2
        · simp [hna] at hpa3
      · rcases hab with ⟨hna2, hnb⟩ | (⟨hpa2, hnb⟩ | ⟨hpa2, hpb, hltab⟩) | ⟨hpa3, heq2, hrest2⟩
        · simp [hna2] at hpa
        · exact Or.inr (Or.inl (Or.inl ⟨hpx, hnb⟩))
        · refine Or.inr (Or.inl (Or.inr ⟨hpx, hpb, ?_⟩))
          exact jsLt_trans_typed _ _ _
            (uniformKey_triple f docs hqk x hx a ha b hb) hltxa hltab
        · refine Or.inr (Or.inl (Or.inr ⟨hpx, ?_, ?_⟩))
          · rw [← heq2]
            exact hpa
          · rw [← heq2]
            exact hltxa
      · have hpa : isNullish (jsGet a f) = false := by
          rw [← heq]
          exact hpx
        rcases hab with ⟨hna2, hnb⟩ | (⟨hpa2, hnb⟩ | ⟨hpa2, hpb, hltab⟩) | ⟨hpa3, heq2, hrest2⟩
        · simp [hna2] at hpa
        · exact Or.inr (Or.inl (Or.inl ⟨hpx, hnb⟩))
        · refine Or.inr (Or.inl (Or.inr ⟨hpx, hpb, ?_⟩))
          rw [heq]
          exact hltab
        · exact Or.inr (Or.inr ⟨hpx, heq.trans heq2, ihstep hrest hrest2⟩)

theorem jsSortDocs_nil_cmp (l : List Doc) : jsSortDocs (jsCompare []) l = l := by
  induction l with
  | nil => rfl
  | cons x xs ih =>
    rw [jsSortDocs, ih]
    cases xs with
    | nil => rfl
    | cons y ys => simp [jsInsert, jsCompare]

/-- C2 (amended): when findMany's first find fails with `400
no_usable_index` and the call carries no limit, the fallback re-fetches
without sort or skip and returns exactly the fetched matching documents
sorted in memory and then sliced from the requested offset.  The in-memory
order is per sort key in order, ascending by default, with ties between
equal present values broken by the next sort key — but the comparator
negates the missing-value rule together with the value comparison for a
descending key, so missing/null values order last under ascending and
first under descending.  The ordering is guaranteed for sort keys whose
present values are uniformly numbers or uniformly strings (`uniformKey`);
with mixed-type values the comparator is inconsistent and no deterministic
order exists. -/
theorem findMany_fallback_inmemory_sort
    (sel : J) (model : String) (useModelAsDatabase : Bool) (offset : Option Nat)
    (orderBy : List (String × String)) (docs : List Doc) (bk : Option String)
    (rest : List StoreResp)
    (ht : ∀ q ∈ orderBy, uniformKey q.1 docs) :
    ∃ sorted : List Doc,
      List.Perm sorted docs ∧
      List.Pairwise (lexLe orderBy) sorted ∧
      findManyFlow sel model useModelAsDatabase none offset orderBy
          (StoreResp.err 400 "no_usable_index" ::
            StoreResp.found docs bk :: rest)
        = ([StoreReq.find (findManySelector useModelAsDatabase sel model) none offset
              (orderBy.map (fun o => (o.1, if o.2 = "desc" then "desc" else "asc")))
              none,
            StoreReq.find (findManySelector useModelAsDatabase sel model)
              none none [] none],
           rest, Except.ok ((sorted.drop (offset.getD 0)).map decodeDoc)) := by
  refine ⟨jsSortDocs (jsCompare orderBy) docs, jsSortDocs_perm _ docs, ?_, ?_⟩
  · apply jsSortDocs_pairwise (lexLe orderBy) (jsCompare orderBy) docs
    · intro p hp q hq hle
      exact (jsCompare_le_lexLe orderBy docs ht p hp q hq).1 hle
    · intro p hp q hq hgt
      exact (jsCompare_le_lexLe orderBy docs ht p hp q hq).2 hgt
    · intro p hp q hq r hr
      exact lexLe_trans orderBy docs ht p hp q hq r hr
  · cases orderBy with
    | nil =>
      cases offset with
      | none =>
        simp [findManyFlow, fcatch, fbind, fpure, fraise, dbFind, callStore,
          jsSortDocs_nil_cmp]
      | some n =>
        cases n with
        | zero =>
          simp [findManyFlow, fcatch, fbind, fpure, fraise, dbFind, callStore,
            jsSortDocs_nil_cmp]
        | succ k =>
          simp [findManyFlow, fcatch, fbind, fpure, fraise, dbFind, callStore,
            jsSortDocs_nil_cmp]
    | cons q qs =>
      cases offset with
      | none =>
        simp [findManyFlow, fcatch, fbind, fpure, fraise, dbFind, callStore]
      | some n =>
        cases n with
        | zero =>
          simp [findManyFlow, fcatch, fbind, fpure, fraise, dbFind, callStore]
        | succ k =>
          simp [findManyFlow, fcatch, fbind, fpure, fraise, dbFind, callStore]

/-- Witness: `findMany_fallback_inmemory_sort` over two documents with
integer ages and no name field, sorted by age descending then name
ascending — both sort keys are uniformly typed. -/
theorem findMany_fallback_inmemory_sort_witness :
    ∃ sorted : List Doc,
      List.Perm sorted [wAge5, wAge7] ∧
      List.Pairwise (lexLe [("age", "desc"), ("name", "asc")]) sorted ∧
      findManyFlow (J.obj []) "user" true none none
          [("age", "desc"), ("name", "asc")]
          [StoreResp.err 400 "no_usable_index",
           StoreResp.found [wAge5, wAge7] none]
        = ([StoreReq.find (findManySelector true (J.obj []) "user") none none
              [("age", "desc"), ("name", "asc")] none,
            StoreReq.find (findManySelector true (J.obj []) "user")
              none none [] none],
           [], Except.ok ((sorted.drop 0).map decodeDoc)) := by
  have h := findMany_fallback_inmemory_sort (J.obj []) "user" true none
    [("age", "desc"), ("name", "asc")] [wAge5, wAge7] none []
    (by
      intro q hq
      simp only [List.mem_cons, List.not_mem_nil, or_false] at hq
      rcases hq with h | h
      · subst h
        refine Or.inl ?_
        intro a ha
        simp only [List.mem_cons, List.not_mem_nil, or_false] at ha
        rcases ha with h | h
        · subst h
          exact Or.inl ⟨5, by decide⟩
        · subst h
          exact Or.inl ⟨7, by decide⟩
      · subst h
        refine Or.inr ?_
        intro a ha
        simp only [List.mem_cons, List.not_mem_nil, or_false] at ha
        rcases ha with h | h
        · subst h
          exact Or.inr (by decide)
        · subst h
          exact Or.inr (by decide))
  simpa using h

/-! ### Claim C7 — string operators compile to escaped regex patterns -/

theorem escapedProperly_flatMap (l : List Char) :
    escapedProperly (l.flatMap (fun c => if isRegexMeta c then ['\\', c] else [c]))
      = true := by
  induction l with
  | nil => rfl
  | cons c cs ih =>
    by_cases hc : isRegexMeta c
    · simp only [List.flatMap_cons, hc, if_true, List.cons_append, List.nil_append]
      simpa [escapedProperly, escapedFrom] using ih
    · have hcb : c ≠ '\\' := by
        intro h
        rw [h] at hc
        exact hc (by decide)
      simp only [List.flatMap_cons, hc, if_false, List.cons_append, List.nil_append,
        Bool.false_eq_true]
      simpa [escapedProperly, escapedFrom, hcb, hc] using ih

/-- C7: `contains`, `startsWith` and `endsWith` with a string value compile
the field to a `$regex` pattern equal to `.*esc(v).*`, `^esc(v).*` and
`.*esc(v)$` respectively, where `escapeRegex` prefixes every regex
metacharacter with a backslash, so no metacharacter of the user-controlled
value reaches the pattern unescaped. -/
theorem string_operator_regex_escaped (f v : String)
    (hand : f ≠ "AND") (hor : f ≠ "OR") (hid : f ≠ "id") :
    convertWhereToSelector (J.obj [(f, J.obj [("contains", J.str v)])])
      = J.obj [(f, J.obj [("$regex", J.str (".*" ++ escapeRegex v ++ ".*"))])] ∧
    convertWhereToSelector (J.obj [(f, J.obj [("startsWith", J.str v)])])
      = J.obj [(f, J.obj [("$regex", J.str ("^" ++ escapeRegex v ++ ".*"))])] ∧
    convertWhereToSelector (J.obj [(f, J.obj [("endsWith", J.str v)])])
      = J.obj [(f, J.obj [("$regex", J.str (".*" ++ escapeRegex v ++ "$"))])] ∧
    escapedProperly (escapeRegex v).data = true := by
  refine ⟨?_, ?_, ?_, ?_⟩
  · simp [convertWhereToSelector, selFold, selStep, selOpStep, jsSet, jsToString,
      hand, hor, hid]
  · simp [convertWhereToSelector, selFold, selStep, selOpStep, jsSet, jsToString,
      hand, hor, hid]
  · simp [convertWhereToSelector, selFold, selStep, selOpStep, jsSet, jsToString,
      hand, hor, hid]
  · exact escapedProperly_flatMap v.data

/-- Witness: `string_operator_regex_escaped` at a metacharacter-laden value. -/
theorem string_operator_regex_escaped_witness :
    convertWhereToSelector (J.obj [("name", J.obj [("contains", J.str "a.b*")])])
      = J.obj [("name",
          J.obj [("$regex", J.str (".*" ++ escapeRegex "a.b*" ++ ".*"))])] ∧
    escapedProperly (escapeRegex "a.b*").data = true := by
  have h := string_operator_regex_escaped "name" "a.b*"
    (by decide) (by decide) (by decide)
  exact ⟨h.1, h.2.2.2⟩

/-! ### Claim C1 — compiling a flat condition sequence and matching -/

/-- C1 counterexample: on the sequence
`[A:eq:1, then B:eq:2 with connector OR, then C:eq:3 with connector AND]`
the compiler never pulls the preceding AND-connected condition `A` into
the OR group, so the selector is the conjunction of all three conditions —
and neither of the two documents the claim requires to match actually
matches. -/
theorem where_or_grouping_counterexample :
    mangoMatches c1DocAC (compileWhere c1ExampleSeq) = false ∧
    mangoMatches c1DocBC (compileWhere c1ExampleSeq) = false := by decide

theorem selList_eq_map (l : List J) :
    selList l = l.map convertWhereToSelector := by
  induction l with
  | nil => rfl
  | cons x xs ih => simp [selList, ih]

theorem convert_condObj (c : Cond) (hwf : plainEqCond c = true) :
    convertWhereToSelector (condObj c)
      = J.obj [(c.field, J.obj [("$eq", c.value)])] := by
  simp only [plainEqCond, Bool.and_eq_true, decide_eq_true_eq] at hwf
  obtain ⟨⟨⟨⟨⟨⟨hop, hne⟩, hid⟩, hA⟩, hO⟩, h2⟩, h3⟩ := hwf
  have hnorm : normalizeOp c.operator = "equals" := by
    rcases hop with h | h <;> simp [normalizeOp, h]
  show convertWhereToSelector
      (J.obj [(c.field, J.obj [(normalizeOp c.operator, c.value)])]) = _
  rw [hnorm]
  simp [convertWhereToSelector, selFold, selStep, selOpStep, jsSet, hA, hO, hid]

theorem mango_condObj (doc : Doc) (c : Cond) (hwf : plainEqCond c = true) :
    mangoMatches doc (convertWhereToSelector (condObj c)) = evalCondEq doc c := by
  rw [convert_condObj c hwf]
  simp only [plainEqCond, Bool.and_eq_true, decide_eq_true_eq] at hwf
  obtain ⟨⟨⟨⟨⟨⟨hop, hne⟩, hid⟩, hA⟩, hO⟩, h2⟩, h3⟩ := hwf
  simp [mangoMatches, mangoEntries, mangoEntry, mangoOps, mangoOp, h2, h3,
    evalCondEq]

theorem mangoAny_condObjs (doc : Doc) (g : List Cond)
    (hwf : ∀ c ∈ g, plainEqCond c = true) :
    mangoAny doc (selList (g.map condObj)) = g.any (evalCondEq doc) := by
  induction g with
  | nil => rfl
  | cons c cs ih =>
    simp only [List.map_cons, selList, mangoAny, List.any_cons]
    rw [mango_condObj doc c (hwf c (by simp)), ih (fun x hx => hwf x (by simp [hx]))]

theorem mango_groupToJ (doc : Doc) (g : List Cond) (hne : g ≠ [])
    (hwf : ∀ c ∈ g, plainEqCond c = true) :
    mangoMatches doc (convertWhereToSelector (groupToJ g))
      = g.any (evalCondEq doc) := by
  match g with
  | [c] =>
    rw [show groupToJ [c] = condObj c from rfl,
      mango_condObj doc c (hwf c (by simp))]
    simp
  | c1 :: c2 :: rest =>
    have hsel : convertWhereToSelector (groupToJ (c1 :: c2 :: rest))
        = J.obj [("$or", J.arr (selList ((c1 :: c2 :: rest).map condObj)))] := by
      simp [groupToJ, convertWhereToSelector, selFold, selStep, jsSet]
    rw [hsel]
    have hor := mangoAny_condObjs doc (c1 :: c2 :: rest) hwf
    simp only [List.map_cons] at hor
    simp only [mangoMatches, mangoEntries, mangoEntry, reduceIte]
    simp [hor]

theorem mangoAll_groups (doc : Doc) (groups : List (List Cond))
    (hne : ∀ g ∈ groups, g ≠ [])
    (hwf : ∀ g ∈ groups, ∀ c ∈ g, plainEqCond c = true) :
    mangoAll doc (selList (groups.map groupToJ))
      = groups.all (fun g => g.any (evalCondEq doc)) := by
  induction groups with
  | nil => rfl
  | cons g gs ih =>
    simp only [List.map_cons, selList, mangoAll, List.all_cons]
    rw [mango_groupToJ doc g (hne g (by simp)) (hwf g (by simp)),
      ih (fun x hx => hne x (by simp [hx])) (fun x hx => hwf x (by simp [hx]))]

theorem closeOrGroup_map (gs : List (List Cond)) (cur : List Cond) :
    closeOrGroup (gs.map groupToJ) (cur.map condObj)
      = (gs ++ flushGroup cur).map groupToJ := by
  match cur with
  | [] => simp [closeOrGroup, flushGroup]
  | [c] => simp [closeOrGroup, flushGroup, groupToJ]
  | c1 :: c2 :: rest => simp [closeOrGroup, flushGroup, groupToJ]

theorem whereArray_fold_map (cs : List Cond) :
    ∀ (gs : List (List Cond)) (cur : List Cond),
    cs.foldl whereArrayStep (gs.map groupToJ, cur.map condObj)
      = ((cs.foldl orGroupStep (gs, cur)).1.map groupToJ,
         (cs.foldl orGroupStep (gs, cur)).2.map condObj) := by
  induction cs with
  | nil => intro gs cur; simp
  | cons c cs ih =>
    intro gs cur
    simp only [List.foldl_cons]
    by_cases hc : c.connector = some "OR"
    · rw [show whereArrayStep (gs.map groupToJ, cur.map condObj) c
          = (gs.map groupToJ, cur.map condObj ++ [condObj c]) from by
            simp [whereArrayStep, hc],
        show orGroupStep (gs, cur) c = (gs, cur ++ [c]) from by
          simp [orGroupStep, hc]]
      simpa using ih gs (cur ++ [c])
    · rw [show whereArrayStep (gs.map groupToJ, cur.map condObj) c
          = (closeOrGroup (gs.map groupToJ) (cur.map condObj) ++ [condObj c], []) from by
            simp [whereArrayStep, hc],
        show orGroupStep (gs, cur) c = (gs ++ flushGroup cur ++ [[c]], []) from by
          simp [orGroupStep, hc],
        closeOrGroup_map]
      have hmap : (gs ++ flushGroup cur).map groupToJ ++ [condObj c]
          = ((gs ++ flushGroup cur ++ [[c]]).map groupToJ) := by
        simp [groupToJ]
      rw [hmap]
      simpa using ih (gs ++ flushGroup cur ++ [[c]]) []

theorem orGroups_wf (P : Cond → Prop) (cs : List Cond) :
    ∀ (gs : List (List Cond)) (cur : List Cond),
    (∀ g ∈ gs, g ≠ [] ∧ ∀ c ∈ g, P c) →
    (∀ c ∈ cur, P c) →
    (∀ c ∈ cs, P c) →
    ∀ g ∈ (cs.foldl orGroupStep (gs, cur)).1 ++
        flushGroup (cs.foldl orGroupStep (gs, cur)).2,
      g ≠ [] ∧ ∀ c ∈ g, P c := by
  induction cs with
  | nil =>
    intro gs cur hgs hcur _ g hg
    simp only [List.foldl_nil] at hg
    rcases List.mem_append.mp hg with h | h
    · exact hgs g h
    · match cur, h with
      | c :: cur', h =>
        simp only [flushGroup, List.mem_singleton] at h
        subst h
        exact ⟨by simp, hcur⟩
  | cons c cs ih =>
    intro gs cur hgs hcur hcs
    simp only [List.foldl_cons]
    by_cases hc : c.connector = some "OR"
    · rw [show orGroupStep (gs, cur) c = (gs, cur ++ [c]) from by
        simp [orGroupStep, hc]]
      exact ih gs (cur ++ [c]) hgs
        (fun x hx => by
          rcases List.mem_append.mp hx with h | h
          · exact hcur x h
          · simp only [List.mem_singleton] at h
            subst h
            exact hcs x (by simp))
        (fun x hx => hcs x (by simp [hx]))
    · rw [show orGroupStep (gs, cur) c = (gs ++ flushGroup cur ++ [[c]], []) from by
        simp [orGroupStep, hc]]
      apply ih (gs ++ flushGroup cur ++ [[c]]) []
      · intro g hg
        rcases List.mem_append.mp hg with hg2 | hg2
        · rcases List.mem_append.mp hg2 with h | h
          · exact hgs g h
          · match cur, h with
            | x :: cur', h =>
              simp only [flushGroup, List.mem_singleton] at h
              subst h
              exact ⟨by simp, hcur⟩
        · simp only [List.mem_singleton] at hg2
          subst hg2
          refine ⟨by simp, ?_⟩
          intro x hx
          simp only [List.mem_singleton] at hx
          subst hx
          exact hcs x (by simp)
      · simp
      · exact fun x hx => hcs x (by simp [hx])

theorem orGroups_wf_top (P : Cond → Prop) (cs : List Cond)
    (hcs : ∀ c ∈ cs, P c) :
    ∀ g ∈ orGroups cs, g ≠ [] ∧ ∀ c ∈ g, P c := by
  have h := orGroups_wf P cs [] [] (by simp) (by simp) hcs
  simpa [orGroups] using h

theorem convertWhereArrayToRecord_eq (cs : List Cond)
    (hf : ∀ c ∈ cs, c.field ≠ "") :
    convertWhereArrayToRecord cs
      = match (orGroups cs).map groupToJ with
        | [] => none
        | [single] => some single
        | more => some (J.obj [("AND", J.arr more)]) := by
  unfold convertWhereArrayToRecord
  have hfilter : cs.filter (fun c => c.field ≠ "") = cs := by
    apply List.filter_eq_self.mpr
    intro c hc
    simpa using hf c hc
  rw [hfilter]
  by_cases hcs : cs.isEmpty
  · have hnil : cs = [] := by
      cases cs with
      | nil => rfl
      | cons x xs => simp at hcs
    subst hnil
    simp [orGroups, flushGroup]
  · simp only [hcs, Bool.false_eq_true, if_false]
    have hfold := whereArray_fold_map cs [] []
    simp only [List.map_nil] at hfold
    rw [hfold, closeOrGroup_map]
    rfl

/-- C1 (amended): compiling a flat Where sequence and matching against the
compiled selector equals direct evaluation of the boolean expression in
which a condition with connector OR joins only the group of immediately
preceding OR-connected conditions, while a condition with no connector or
AND always stands as its own conjunct — the preceding condition is never
pulled into a later OR group.  Stated for equality-operator conditions on
plain field names; in particular the claim's example sequence compiles to
the conjunction of all three conditions. -/
theorem where_compile_match_eval (cs : List Cond) (doc : Doc)
    (hwf : ∀ c ∈ cs, plainEqCond c = true) :
    mangoMatches doc (compileWhere cs) = evalWhereSeq cs doc := by
  have hf : ∀ c ∈ cs, c.field ≠ "" := by
    intro c hc
    have h := hwf c hc
    simp only [plainEqCond, Bool.and_eq_true, decide_eq_true_eq] at h
    exact h.1.1.1.1.1.2
  have hgs := orGroups_wf_top (fun c => plainEqCond c = true) cs hwf
  unfold compileWhere
  rw [convertWhereArrayToRecord_eq cs hf]
  unfold evalWhereSeq
  match hog : orGroups cs with
  | [] => simp [mangoMatches, mangoEntries]
  | [g] =>
    simp only [List.map_cons, List.map_nil]
    rw [mango_groupToJ doc g (hgs g (by rw [hog]; simp)).1
      (hgs g (by rw [hog]; simp)).2]
    simp
  | g1 :: g2 :: gs2 =>
    simp only [List.map_cons]
    have hsel : convertWhereToSelector
        (J.obj [("AND", J.arr (groupToJ g1 :: groupToJ g2 :: gs2.map groupToJ))])
        = J.obj [("$and", J.arr (selList ((g1 :: g2 :: gs2).map groupToJ)))] := by
      simp [convertWhereToSelector, selFold, selStep, jsSet]
    rw [hsel]
    have hall := mangoAll_groups doc (g1 :: g2 :: gs2)
      (fun g hg => (hgs g (by rw [hog]; exact hg)).1)
      (fun g hg => (hgs g (by rw [hog]; exact hg)).2)
    simp only [List.map_cons] at hall
    simp only [mangoMatches, mangoEntries, mangoEntry, reduceIte]
    simp [hall]

/-- Witness: `where_compile_match_eval` at the claim's example sequence and
the document with `A = 1` and `C = 3`. -/
theorem where_compile_match_eval_witness :
    (∀ c ∈ c1ExampleSeq, plainEqCond c = true) ∧
    mangoMatches c1DocAC (compileWhere c1ExampleSeq)
      = evalWhereSeq c1ExampleSeq c1DocAC :=
  ⟨by decide, where_compile_match_eval c1ExampleSeq c1DocAC (by decide)⟩

end CouchAdapter
